import Mathlib

/-!
Shallow embedding of the punq dependency-injection container
(src/punq/__init__.py) and verification of the frozen claims.

Modelling decisions:
- Service keys (`Key`) are either a type identity (`plain n`), a string key
  (`strKey s`, the unresolved forward-reference case), or a parameterized
  collection key (`listOf k`, Python `typing.List[k]`).
- Instances are symbolic objects (`Obj`): a factory invocation records a fresh
  allocation reference (`ref`, modelling CPython object identity), the tag of
  the builder that produced it, and the keyword arguments it was called with.
- Builders carry their declared parameter list (the result of
  `inspect.getfullargspec(builder).args`) and either a factory tag or a
  constant value (the `lambda: instance` thunk of an instance registration).
- The reflection-based needs extractor (`get_type_hints`) is an external
  collaborator per the spec; a registered factory therefore arrives bundled
  with its needs map, and concrete self-registrations consult a
  `NeedsExtractor` for the constructor metadata of the class.
- Exceptions become the `Res` result type; `Res.err` carries the container
  state at raise time (Python exceptions leave prior mutations in place).
- Recursion is fuel-indexed: one unit of fuel is one nesting level of
  `Container._resolve_impl`.  `Res.fuelOut` marks fuel exhaustion; the helper
  loops (the needs comprehension of `_build_impl`, the list comprehension
  of `resolve_all`) are structural on their lists and consume no fuel, exactly
  mirroring the call structure of the Python code.
- The container state carries a ghost `buildLog` recording the service key of
  every `registration.builder(**args)` invocation, used to state claims about
  how many instances are built per key.
-/

abbrev ParamName := String

/-- Service keys.  `plain n` is a class / type identity, `strKey s` a plain
string key, `listOf k` the generic alias `List[k]`. -/
inductive Key where
  | plain (n : Nat)
  | strKey (s : String)
  | listOf (k : Key)
deriving DecidableEq

/-- Modelled from the spec: `_compat.is_generic_list` (the `_compat` module is
not part of src/).  Per spec section 3, a Resolution Target "tracks whether the
key denotes a resolve-all-as-collection request (a parameterized collection key
whose element type is the real target)". -/
def Key.is_generic_list : Key → Bool
  | .listOf _ => true
  | _ => false

/-- `ResolutionTarget.generic_parameter`: `self.service.__args__[0]`.  Only
meaningful on a generic list key. -/
def Key.generic_parameter : Key → Key
  | .listOf k => k
  | k => k

/-- `type(service) is type` in `Registry.register_concrete_service`: true
exactly for class identities (a generic alias or a string is not a type). -/
def Key.isType : Key → Bool
  | .plain _ => true
  | _ => false

/-- Symbolic runtime objects.  `mk ref builder args` is the object returned by
invoking factory `builder` with keyword arguments `args`; `ref` is its
allocation identity.  `objList` is the list returned by `resolve_all`;
`prim n` is an opaque caller-supplied value. -/
inductive Obj where
  | mk (ref : Nat) (builder : Nat) (args : List (ParamName × Obj))
  | objList (items : List Obj)
  | prim (n : Nat)

inductive Scope where
  | transient
  | singleton
deriving DecidableEq

/-- What a builder does when invoked. -/
inductive BuilderImpl where
  | factory (tag : Nat)
  | const (v : Obj)

/-- A callable: its declared parameter names (`getfullargspec(...).args`,
possibly containing `"self"`) and its behaviour. -/
structure Builder where
  params : List ParamName
  impl : BuilderImpl

/-- `Registration` named tuple of the source. -/
structure Registration where
  service : Key
  scope : Scope
  builder : Builder
  needs : List (ParamName × Key)
  args : List (ParamName × Obj)

/-- A factory value passed to `register`: the callable together with the needs
map the external needs extractor produces for it (which may contain a
`"return"` reflection artifact). -/
structure Factory where
  builder : Builder
  needs : List (ParamName × Key)

/-- The `factory=` argument of `register`: absent (`empty` sentinel), a
callable, or a non-callable value. -/
inductive FactoryArg where
  | empty
  | cal (f : Factory)
  | notCallable

/-- External needs-extraction collaborator for concrete self-registrations:
constructor parameter names and needs map of class `n`. -/
structure NeedsExtractor where
  ctorParams : Nat → List ParamName
  ctorNeeds : Nat → List (ParamName × Key)

inductive PunqError where
  | missingDependency (k : Key)
  | invalidRegistration (k : Key)

abbrev Kwargs := List (ParamName × Obj)

/-- Mutable container state: the registry (flat append-only registration list;
the per-key list of the source is the filter by service), the process-wide
singleton cache, the allocation counter for object identities, and the ghost
log of builder invocations (one service key per `registration.builder(**args)`
call). -/
structure ContainerState where
  registrations : List Registration
  singletons : List (Key × Obj)
  nextRef : Nat
  buildLog : List Key

/-- `ResolutionContext`: per-resolve scratchpad.  `targets` maps each visited
key to its remaining working copy of registrations (the `ResolutionTarget`
impls list), `cache` is the per-resolve instance cache. -/
structure ResolutionContext where
  targets : List (Key × List Registration)
  cache : List (Key × Obj)
  service : Key

/-- First-match association-list lookup (Python `dict` read). -/
def lookupBy {α : Type} {β : Type} [DecidableEq α] (k : α) : List (α × β) → Option β
  | [] => none
  | (k', v) :: t => if k' = k then some v else lookupBy k t

/-- Python `dict` write `d[k] = v`: replace in place if present (keeping the
insertion position), else append. -/
def setBy {α : Type} {β : Type} [DecidableEq α] (k : α) (v : β) : List (α × β) → List (α × β)
  | [] => [(k, v)]
  | (k', v') :: t => if k' = k then (k, v) :: t else (k', v') :: setBy k v t

/-- Python `d.update(u)`. -/
def updAll {α : Type} {β : Type} [DecidableEq α] (d u : List (α × β)) : List (α × β) :=
  u.foldl (fun acc p => setBy p.1 p.2 acc) d

/-- `Registry.__getitem__`: the ordered per-key registration list. -/
def regsFor (regs : List Registration) (k : Key) : List Registration :=
  regs.filter (fun r => r.service == k)

/-- `ResolutionTarget.next_impl`: pop the most recently registered alternative
from the end of the working list (`list.pop()`), or `none` when exhausted.
Returns the popped registration and the remaining list. -/
def next_impl (impls : List Registration) : Option Registration × List Registration :=
  match impls.getLast? with
  | none => (none, impls)
  | some r => (some r, impls.dropLast)

/-- `Registry.build_context(key)` with no existing context: a fresh context
whose single target is a copy of the registry list for `key`. -/
def buildContext (regs : List Registration) (key : Key) : ResolutionContext :=
  { targets := [(key, regsFor regs key)], cache := [], service := key }

/-- `Registry.build_context(key, existing)`: add a target for `key` (a copy of
the registry list) if the context has none yet. -/
def buildContextExisting (regs : List Registration) (key : Key)
    (ctx : ResolutionContext) : ResolutionContext :=
  if (lookupBy key ctx.targets).isSome then ctx
  else { ctx with targets := ctx.targets ++ [(key, regsFor regs key)] }

/-- `ResolutionContext.all_registrations`. -/
def allRegistrations (service : Key) (ctx : ResolutionContext) : List Registration :=
  (lookupBy service ctx.targets).getD []

/-- Result of a resolution step: success (value, container state, context),
a raised exception (with the container state at raise time), or fuel
exhaustion. -/
inductive Res (α : Type) where
  | ok (val : α) (st : ContainerState) (ctx : ResolutionContext)
  | err (e : PunqError) (st : ContainerState)
  | fuelOut

/-- `registration.builder(**args)`: a factory allocates a fresh object
identity; the constant thunk of an instance registration returns the stored
object unchanged. -/
def invokeBuilder (b : Builder) (args : Kwargs) (st : ContainerState) :
    Obj × ContainerState :=
  match b.impl with
  | .factory tag => (Obj.mk st.nextRef tag args, { st with nextRef := st.nextRef + 1 })
  | .const v => (v, st)

/-- The condensed override args of `_build_impl`: caller kwargs whose name is
among the builder's declared parameters after removing one `"self"`. -/
def condensedArgs (resolutionArgs : Kwargs) (params : List ParamName) : Kwargs :=
  let targetArgs := params.erase "self"
  resolutionArgs.filter (fun q => targetArgs.contains q.1)

/-- The argument set `_build_impl` passes to the builder: resolved needs,
updated by the explicit args of the registration, then by the condensed caller
override args. -/
def assembleArgs (resolved regArgs : Kwargs) (resolutionArgs : Kwargs)
    (params : List ParamName) : Kwargs :=
  updAll (updAll resolved regArgs) (condensedArgs resolutionArgs params)

/-- The needs-resolution comprehension of `_build_impl`, parameterized by the
recursive resolver: for every `(paramName, requiredKey)` of the needs map,
except names equal to `"return"`, present in the explicit args of the registration,
or present in the caller kwargs, resolve `requiredKey` and bind the result. -/
def resolveNeedsWith
    (r : Key → Kwargs → ResolutionContext → ContainerState → Res Obj) :
    List (ParamName × Key) → List (ParamName × Obj) → Kwargs →
    ResolutionContext → ContainerState → Res (List (ParamName × Obj))
  | [], _, _, ctx, st => .ok [] st ctx
  | (p, k) :: rest, regArgs, kwargs, ctx, st =>
    if p = "return" ∨ (lookupBy p regArgs).isSome ∨ (lookupBy p kwargs).isSome then
      resolveNeedsWith r rest regArgs kwargs ctx st
    else
      match r k kwargs ctx st with
      | .ok v st' ctx' =>
        match resolveNeedsWith r rest regArgs kwargs ctx' st' with
        | .ok vs st'' ctx'' => .ok ((p, v) :: vs) st'' ctx''
        | .err e s => .err e s
        | .fuelOut => .fuelOut
      | .err e s => .err e s
      | .fuelOut => .fuelOut

/-- Tail of `Container._build_impl` after the builder invocation `built`:
record the build in the ghost log, store a singleton-scoped result in the
singleton cache, and always store the result in the context cache under the
service key of the registration. -/
def buildFinish (reg : Registration) (built : Obj × ContainerState)
    (ctx' : ResolutionContext) : Res Obj :=
  .ok built.1
    (if reg.scope = Scope.singleton then
      { built.2 with buildLog := built.2.buildLog ++ [reg.service],
                     singletons := setBy reg.service built.1 built.2.singletons }
     else { built.2 with buildLog := built.2.buildLog ++ [reg.service] })
    { ctx' with cache := setBy reg.service built.1 ctx'.cache }

/-- `Container._build_impl`, parameterized by the recursive resolver: resolve
the needs, assemble the argument set, invoke the builder, and finish. -/
def buildImplWith
    (r : Key → Kwargs → ResolutionContext → ContainerState → Res Obj)
    (reg : Registration) (resolutionArgs : Kwargs)
    (ctx : ResolutionContext) (st : ContainerState) : Res Obj :=
  match resolveNeedsWith r reg.needs reg.args resolutionArgs ctx st with
  | .ok resolved st' ctx' =>
    buildFinish reg
      (invokeBuilder reg.builder
        (assembleArgs resolved reg.args resolutionArgs reg.builder.params) st')
      ctx'
  | .err e s => .err e s
  | .fuelOut => .fuelOut

/-- The list comprehension of `Container.resolve_all`: build every
registration of the key, threading state left to right. -/
def buildListWith
    (b : Registration → Kwargs → ResolutionContext → ContainerState → Res Obj) :
    List Registration → Kwargs → ResolutionContext → ContainerState →
    Res (List Obj)
  | [], _, ctx, st => .ok [] st ctx
  | reg :: rest, kwargs, ctx, st =>
    match b reg kwargs ctx st with
    | .ok v st' ctx' =>
      match buildListWith b rest kwargs ctx' st' with
      | .ok vs st'' ctx'' => .ok (v :: vs) st'' ctx''
      | .err e s => .err e s
      | .fuelOut => .fuelOut
    | .err e s => .err e s
    | .fuelOut => .fuelOut

/-- `Container.resolve_all`, parameterized by the recursive resolver: build a
fresh context rooted at the service and build every registration for it. -/
def resolveAllWith
    (r : Key → Kwargs → ResolutionContext → ContainerState → Res Obj)
    (service : Key) (kwargs : Kwargs) (st : ContainerState) : Res (List Obj) :=
  let ctx := buildContext st.registrations service
  buildListWith (buildImplWith r) (allRegistrations service ctx) kwargs ctx st

/-- Body of `Container._resolve_impl` after the context has been ensured to
hold a target for `key` (`ctx₁`): consult the singleton cache, then the
context cache, delegate generic list keys to `resolve_all`, otherwise pop the
next alternative (raising `MissingDependencyException` when exhausted), run
the direct self-reference guard, and build. -/
def resolveStepEnsured
    (r : Key → Kwargs → ResolutionContext → ContainerState → Res Obj)
    (key : Key) (kwargs : Kwargs) (ctx₁ : ResolutionContext)
    (st : ContainerState) : Res Obj :=
  match lookupBy key st.singletons with
  | some v => .ok v st ctx₁
  | none =>
    match lookupBy key ctx₁.cache with
    | some v => .ok v st ctx₁
    | none =>
      if Key.is_generic_list key then
        match resolveAllWith r (Key.generic_parameter key) [] st with
        | .ok items st' _ => .ok (Obj.objList items) st' ctx₁
        | .err e s => .err e s
        | .fuelOut => .fuelOut
      else
        match next_impl ((lookupBy key ctx₁.targets).getD []) with
        | (none, _) => .err (.missingDependency key) st
        | (some reg, rest) =>
          if key ∈ reg.needs.map Prod.snd then
            match r key kwargs { ctx₁ with targets := setBy key rest ctx₁.targets } st with
            | .ok _ st' ctx' => buildImplWith r reg kwargs ctx' st'
            | .err e s => .err e s
            | .fuelOut => .fuelOut
          else
            buildImplWith r reg kwargs
              { ctx₁ with targets := setBy key rest ctx₁.targets } st

/-- One body of `Container._resolve_impl`, parameterized by the resolver used
for the recursive calls (which in `resolveImpl` is the same function at one
less fuel): ensure a target exists, then run the ensured step. -/
def resolveStep
    (r : Key → Kwargs → ResolutionContext → ContainerState → Res Obj)
    (key : Key) (kwargs : Kwargs) (ctx : ResolutionContext)
    (st : ContainerState) : Res Obj :=
  resolveStepEnsured r key kwargs (buildContextExisting st.registrations key ctx) st

/-- `Container._resolve_impl`, fuel-indexed: each nesting level of the Python
recursion consumes one unit of fuel. -/
def resolveImpl : Nat → Key → Kwargs → ResolutionContext → ContainerState → Res Obj
  | 0, _, _, _, _ => .fuelOut
  | fuel + 1, key, kwargs, ctx, st => resolveStep (resolveImpl fuel) key kwargs ctx st

/-- `Container.resolve`: build a fresh context rooted at the key and run the
internal recursive resolver. -/
def Container.resolve (fuel : Nat) (st : ContainerState) (key : Key)
    (kwargs : Kwargs) : Res Obj :=
  resolveImpl fuel key kwargs (buildContext st.registrations key) st

/-- `Container.resolve_all` as the public entry point. -/
def Container.resolve_all (fuel : Nat) (st : ContainerState) (service : Key)
    (kwargs : Kwargs) : Res (List Obj) :=
  resolveAllWith (resolveImpl fuel) service kwargs st

/-- `Registry.register_service_and_impl`: append a registration with the
builder and needs map of the factory. -/
def Registry.register_service_and_impl (regs : List Registration) (service : Key)
    (scope : Scope) (f : Factory) (resolve_args : Kwargs) : List Registration :=
  regs ++ [{ service := service, scope := scope, builder := f.builder,
             needs := f.needs, args := resolve_args }]

/-- `Registry.register_service_and_instance`: append a singleton-scoped
registration with a constant-returning thunk, empty needs and empty args. -/
def Registry.register_service_and_instance (regs : List Registration)
    (service : Key) (inst : Obj) : List Registration :=
  regs ++ [{ service := service, scope := Scope.singleton,
             builder := { params := [], impl := BuilderImpl.const inst },
             needs := [], args := [] }]

/-- `Registry.register_concrete_service`: a service registered as its own
implementation must be a type identity; its builder is the class itself with
the constructor metadata the needs extractor yields. -/
def Registry.register_concrete_service (ne : NeedsExtractor)
    (regs : List Registration) (service : Key) (scope : Scope) :
    Except PunqError (List Registration) :=
  match service with
  | Key.plain n =>
    .ok (regs ++ [{ service := Key.plain n, scope := scope,
                    builder := { params := ne.ctorParams n,
                                 impl := BuilderImpl.factory n },
                    needs := ne.ctorNeeds n, args := [] }])
  | _ => .error (.invalidRegistration service)

/-- Modelled from the spec: the caller-frame string-to-type lookup of
`Registry.register` (built on `_compat.get_globals_and_locals_of_parent`,
which is not part of src/).  A string service that the caller frame resolves
becomes that key; a `NameError` leaves the string key unchanged. -/
def resolveServiceName (frameResolve : String → Option Key) (service : Key) : Key :=
  match service with
  | .strKey s => (frameResolve s).getD (Key.strKey s)
  | k => k

/-- Modelled from the spec: `_compat.ensure_forward_ref` (not part of src/).
The spec defers all forward-reference name resolution to the registration
syntax collaborator, so this is the identity on the registry. -/
def ensure_forward_ref (regs : List Registration) : List Registration := regs

/-- `Registry.register`: instance registrations win, then absent factory means
concrete self-registration, then a callable factory is registered as an
implementation, and a non-callable factory is an invalid registration. -/
def Registry.register (ne : NeedsExtractor) (regs : List Registration)
    (service : Key) (frameResolve : String → Option Key)
    (factory : FactoryArg) (inst : Option Obj) (scope : Scope)
    (kwargs : Kwargs) : Except PunqError (List Registration) :=
  let resolve_args := kwargs
  let service := resolveServiceName frameResolve service
  match inst with
  | some v => .ok (ensure_forward_ref (Registry.register_service_and_instance regs service v))
  | none =>
    match factory with
    | .empty =>
      (Registry.register_concrete_service ne regs service scope).map ensure_forward_ref
    | .cal f =>
      .ok (ensure_forward_ref
        (Registry.register_service_and_impl regs service scope f resolve_args))
    | .notCallable => .error (.invalidRegistration service)

/-! ## Derived notions used by the verification -/

/-- Remaining alternatives across all targets of a context. -/
def sumLens (l : List (Key × List Registration)) : Nat :=
  (l.map (fun p => p.2.length)).sum

def targetsSum (ctx : ResolutionContext) : Nat := sumLens ctx.targets

/-- Registrations whose service key has not been visited by the context yet. -/
def unvisited (regs : List Registration) (ctx : ResolutionContext) : Nat :=
  (regs.filter (fun r => (lookupBy r.service ctx.targets).isNone)).length

/-- Termination measure: remaining alternatives in the context plus
registrations of unvisited keys. -/
def mu (regs : List Registration) (ctx : ResolutionContext) : Nat :=
  targetsSum ctx + unvisited regs ctx

/-- A registration whose needs map mentions no generic list (collection) key. -/
def regNonGen (r : Registration) : Prop :=
  ∀ pk ∈ r.needs, Key.is_generic_list pk.2 = false

/-- A registry in which no needs map mentions a generic list key. -/
def goodRegs (regs : List Registration) : Prop := ∀ r ∈ regs, regNonGen r

/-- Context invariant: every registration held by a target has a
generic-list-free needs map. -/
def InvCtx (ctx : ResolutionContext) : Prop :=
  ∀ kt ∈ ctx.targets, ∀ r ∈ kt.2, regNonGen r

/-- The result left the registry exactly as it was. -/
def regsPreserved {α : Type} (base : List Registration) : Res α → Prop
  | .ok _ st _ => st.registrations = base
  | .err _ st => st.registrations = base
  | .fuelOut => True

/-- Any raised error is a `MissingDependencyException`. -/
def errsMissing {α : Type} : Res α → Prop
  | .err e _ => ∃ k, e = PunqError.missingDependency k
  | _ => True

def TidyRes {α : Type} (base : List Registration) (res : Res α) : Prop :=
  regsPreserved base res ∧ errsMissing res

/-- Contract of a resolver for the termination proof: on inputs below the
fuel budget it never runs out of fuel, and success preserves the registry,
the context invariant, and never increases the measure. -/
def ResolverTotal (regs : List Registration)
    (r : Key → Kwargs → ResolutionContext → ContainerState → Res Obj)
    (B : Nat) : Prop :=
  ∀ key kwargs ctx st, st.registrations = regs → InvCtx ctx →
    Key.is_generic_list key = false → mu regs ctx < B →
      r key kwargs ctx st ≠ Res.fuelOut ∧
      ∀ v st' ctx', r key kwargs ctx st = Res.ok v st' ctx' →
        st'.registrations = regs ∧ InvCtx ctx' ∧ mu regs ctx' ≤ mu regs ctx

/-- Resolution of a key terminates: some recursion depth suffices. -/
def ResolutionTerminates (st : ContainerState) (key : Key) (kwargs : Kwargs) : Prop :=
  ∃ fuel, Container.resolve fuel st key kwargs ≠ Res.fuelOut

/-- Build log of a finished resolution (ghost observable). -/
def buildLogOf {α : Type} : Res α → Option (List Key)
  | .ok _ st _ => some st.buildLog
  | .err _ st => some st.buildLog
  | .fuelOut => none

/-- Value of a successful resolution. -/
def okValue {α : Type} : Res α → Option α
  | .ok v _ _ => some v
  | _ => none

/-- Error of a failed resolution. -/
def errValue {α : Type} : Res α → Option PunqError
  | .err e _ => some e
  | _ => none

/-! ## Concrete fixtures for witnesses and counterexamples -/

def cKey : Key := Key.plain 5

def cReg1 : Registration :=
  { service := cKey, scope := Scope.transient,
    builder := { params := [], impl := BuilderImpl.factory 1 },
    needs := [], args := [] }

def cReg2 : Registration :=
  { service := cKey, scope := Scope.transient,
    builder := { params := [], impl := BuilderImpl.factory 2 },
    needs := [], args := [] }

/-- Two plain registrations for the same key, builder 1 registered first. -/
def cStTwo : ContainerState :=
  { registrations := [cReg1, cReg2], singletons := [], nextRef := 0, buildLog := [] }

def cRegSing : Registration :=
  { service := cKey, scope := Scope.singleton,
    builder := { params := [], impl := BuilderImpl.factory 3 },
    needs := [], args := [] }

def cStSing : ContainerState :=
  { registrations := [cReg1, cRegSing], singletons := [], nextRef := 0, buildLog := [] }

/-- A decorator-style registration for `cKey` that needs `cKey` itself. -/
def cRegWrap : Registration :=
  { service := cKey, scope := Scope.transient,
    builder := { params := ["inner"], impl := BuilderImpl.factory 2 },
    needs := [("inner", cKey)], args := [] }

def cStWrap : ContainerState :=
  { registrations := [cReg1, cRegWrap], singletons := [], nextRef := 0, buildLog := [] }

/-- A registration for `plain 0` that needs `List[plain 0]`. -/
def cRegLoop : Registration :=
  { service := Key.plain 0, scope := Scope.transient,
    builder := { params := ["x"], impl := BuilderImpl.factory 7 },
    needs := [("x", Key.listOf (Key.plain 0))], args := [] }

def cStLoop : ContainerState :=
  { registrations := [cRegLoop], singletons := [], nextRef := 0, buildLog := [] }

def cStEmpty : ContainerState :=
  { registrations := [], singletons := [], nextRef := 0, buildLog := [] }

def cNE : NeedsExtractor := { ctorParams := fun _ => [], ctorNeeds := fun _ => [] }

def cFrame : String → Option Key := fun _ => none

/-- The instance `v` is one produced by the builder of registration `r`
(invoked without arguments): for a factory, an allocation of that factory tag;
for an instance registration, the stored constant. -/
def BuiltFrom (r : Registration) (v : Obj) : Prop :=
  match r.builder.impl with
  | BuilderImpl.const c => v = c
  | BuilderImpl.factory t => ∃ ref, v = Obj.mk ref t []

/-! ## Association-list lemmas -/

theorem lookupBy_setBy_self {α β : Type} [DecidableEq α] (k : α) (v : β)
    (l : List (α × β)) : lookupBy k (setBy k v l) = some v := by
  induction l with
  | nil => simp [setBy, lookupBy]
  | cons hd t ih =>
    obtain ⟨k', v'⟩ := hd
    by_cases h : k' = k
    · simp [setBy, h, lookupBy]
    · simp [setBy, h, lookupBy, ih]

theorem lookupBy_setBy_ne {α β : Type} [DecidableEq α] {a k : α} (v : β)
    (l : List (α × β)) (h : a ≠ k) : lookupBy a (setBy k v l) = lookupBy a l := by
  have hka : ¬(k = a) := fun hh => h hh.symm
  induction l with
  | nil => simp [setBy, lookupBy, hka]
  | cons hd t ih =>
    obtain ⟨k', v'⟩ := hd
    by_cases hk : k' = k
    · subst hk
      simp [setBy, lookupBy, hka]
    · simp only [setBy, if_neg hk, lookupBy]
      by_cases ha : k' = a
      · simp [ha]
      · simp [ha, ih]

theorem keys_setBy {α β : Type} [DecidableEq α] {k : α} (v : β)
    {l : List (α × β)} (h : (lookupBy k l).isSome) :
    (setBy k v l).map Prod.fst = l.map Prod.fst := by
  induction l with
  | nil => simp [lookupBy] at h
  | cons hd t ih =>
    obtain ⟨k', v'⟩ := hd
    by_cases hk : k' = k
    · simp [setBy, hk]
    · simp only [lookupBy, if_neg hk] at h
      simp [setBy, hk, ih h]

theorem mem_setBy {α β : Type} [DecidableEq α] {k : α} {v : β}
    {l : List (α × β)} {x : α × β} (h : x ∈ setBy k v l) :
    x = (k, v) ∨ x ∈ l := by
  induction l with
  | nil => simpa [setBy] using h
  | cons hd t ih =>
    obtain ⟨k', v'⟩ := hd
    by_cases hk : k' = k
    · simp only [setBy, if_pos hk, List.mem_cons] at h
      rcases h with h | h
      · exact Or.inl h
      · exact Or.inr (List.mem_cons_of_mem _ h)
    · simp only [setBy, if_neg hk, List.mem_cons] at h
      rcases h with h | h
      · exact Or.inr (h ▸ List.mem_cons_self _ _)
      · rcases ih h with h | h
        · exact Or.inl h
        · exact Or.inr (List.mem_cons_of_mem _ h)

theorem lookupBy_append_some {α β : Type} [DecidableEq α] {k : α} {v : β}
    {l₁ : List (α × β)} (l₂ : List (α × β)) (h : lookupBy k l₁ = some v) :
    lookupBy k (l₁ ++ l₂) = some v := by
  induction l₁ with
  | nil => simp [lookupBy] at h
  | cons hd t ih =>
    obtain ⟨k', v'⟩ := hd
    by_cases hk : k' = k
    · simpa [lookupBy, hk] using h
    · simp only [lookupBy, if_neg hk] at h ⊢
      exact ih h

theorem lookupBy_append_none {α β : Type} [DecidableEq α] {k : α}
    {l₁ : List (α × β)} (l₂ : List (α × β)) (h : lookupBy k l₁ = none) :
    lookupBy k (l₁ ++ l₂) = lookupBy k l₂ := by
  induction l₁ with
  | nil => simp [lookupBy]
  | cons hd t ih =>
    obtain ⟨k', v'⟩ := hd
    by_cases hk : k' = k
    · simp [lookupBy, hk] at h
    · simp only [lookupBy, if_neg hk] at h ⊢
      exact ih h

theorem lookupBy_mem {α β : Type} [DecidableEq α] {k : α} {v : β}
    {l : List (α × β)} (h : lookupBy k l = some v) : (k, v) ∈ l := by
  induction l with
  | nil => simp [lookupBy] at h
  | cons hd t ih =>
    obtain ⟨k', v'⟩ := hd
    by_cases hk : k' = k
    · simp only [lookupBy, if_pos hk, Option.some.injEq] at h
      subst hk; subst h; exact List.mem_cons_self _ _
    · simp only [lookupBy, if_neg hk] at h
      exact List.mem_cons_of_mem _ (ih h)

theorem lookupBy_eq_none {α β : Type} [DecidableEq α] {k : α}
    {l : List (α × β)} (h : k ∉ l.map Prod.fst) : lookupBy k l = none := by
  induction l with
  | nil => rfl
  | cons hd t ih =>
    obtain ⟨k', v'⟩ := hd
    simp only [List.map_cons, List.mem_cons] at h
    push_neg at h
    have h1 : ¬(k' = k) := fun hh => h.1 hh.symm
    simp only [lookupBy, if_neg h1, ih h.2]

theorem lookupBy_updAll_none {α β : Type} [DecidableEq α] {p : α}
    {u : List (α × β)} (d : List (α × β)) (h : lookupBy p u = none) :
    lookupBy p (updAll d u) = lookupBy p d := by
  induction u generalizing d with
  | nil => rfl
  | cons hd t ih =>
    obtain ⟨k, w⟩ := hd
    by_cases hk : k = p
    · simp [lookupBy, hk] at h
    · simp only [lookupBy, if_neg hk] at h
      show lookupBy p (updAll (setBy k w d) t) = lookupBy p d
      rw [ih _ h, lookupBy_setBy_ne _ _ (fun hh => hk hh.symm)]

theorem lookupBy_updAll_some {α β : Type} [DecidableEq α] {p : α} {v : β}
    {u : List (α × β)} (d : List (α × β)) (h : lookupBy p u = some v)
    (hnd : (u.map Prod.fst).Nodup) : lookupBy p (updAll d u) = some v := by
  induction u generalizing d with
  | nil => simp [lookupBy] at h
  | cons hd t ih =>
    obtain ⟨k, w⟩ := hd
    simp only [List.map_cons, List.nodup_cons] at hnd
    by_cases hk : k = p
    · simp only [lookupBy, if_pos hk, Option.some.injEq] at h
      subst h
      have ht : lookupBy p t = none := lookupBy_eq_none (hk ▸ hnd.1)
      show lookupBy p (updAll (setBy k w d) t) = some w
      rw [lookupBy_updAll_none _ ht, hk, lookupBy_setBy_self]
    · simp only [lookupBy, if_neg hk] at h
      exact ih _ h hnd.2

theorem lookupBy_filter_keep {α β : Type} [DecidableEq α] {p : α}
    (f : α → Bool) (l : List (α × β)) (hf : f p = true) :
    lookupBy p (l.filter (fun q => f q.1)) = lookupBy p l := by
  induction l with
  | nil => rfl
  | cons hd t ih =>
    obtain ⟨k, w⟩ := hd
    by_cases hk : k = p
    · subst hk
      simp [List.filter_cons, hf, lookupBy]
    · by_cases hfk : f k = true
      · simp [List.filter_cons, hfk, lookupBy, hk, ih]
      · simp only [Bool.not_eq_true] at hfk
        simp [List.filter_cons, hfk, lookupBy, hk, ih]

theorem lookupBy_filter_drop {α β : Type} [DecidableEq α] {p : α}
    (f : α → Bool) (l : List (α × β)) (hf : f p = false) :
    lookupBy p (l.filter (fun q => f q.1)) = none := by
  induction l with
  | nil => rfl
  | cons hd t ih =>
    obtain ⟨k, w⟩ := hd
    by_cases hk : k = p
    · subst hk
      simp [List.filter_cons, hf, lookupBy, ih]
    · by_cases hfk : f k = true
      · simp [List.filter_cons, hfk, lookupBy, hk, ih]
      · simp only [Bool.not_eq_true] at hfk
        simp [List.filter_cons, hfk, lookupBy, hk, ih]

theorem length_filter_split {α : Type} (l : List α) (p q : α → Bool) :
    (l.filter fun a => p a && q a).length + (l.filter fun a => p a && !q a).length
      = (l.filter p).length := by
  induction l with
  | nil => rfl
  | cons a t ih =>
    simp only [List.filter_cons]
    cases hp : p a <;> cases hq : q a <;>
      simp [hp, hq, List.length_cons] <;> omega

@[simp] theorem buildContextExisting_cache (regs : List Registration) (key : Key)
    (ctx : ResolutionContext) :
    (buildContextExisting regs key ctx).cache = ctx.cache := by
  unfold buildContextExisting
  split <;> rfl

/-! ## Registry preservation and error-kind induction -/

@[simp] theorem invokeBuilder_registrations (b : Builder) (args : Kwargs)
    (st : ContainerState) :
    (invokeBuilder b args st).2.registrations = st.registrations := by
  unfold invokeBuilder
  cases b.impl <;> rfl
theorem buildFinish_tidy (reg : Registration) (built : Obj × ContainerState)
    (ctx' : ResolutionContext) (base : List Registration)
    (h : built.2.registrations = base) : TidyRes base (buildFinish reg built ctx') := by
  unfold buildFinish
  refine ⟨?_, trivial⟩
  simp only [regsPreserved]
  split <;> exact h
theorem tidy_resolveNeedsWith
    (r : Key → Kwargs → ResolutionContext → ContainerState → Res Obj)
    (hr : ∀ key kwargs ctx st, TidyRes st.registrations (r key kwargs ctx st)) :
    ∀ needs regArgs kwargs ctx st,
      TidyRes st.registrations (resolveNeedsWith r needs regArgs kwargs ctx st) := by
  intro needs
  induction needs with
  | nil => exact fun _ _ _ _ => ⟨rfl, trivial⟩
  | cons pk rest ih =>
    intro regArgs kwargs ctx st
    obtain ⟨p, k⟩ := pk
    simp only [resolveNeedsWith]
    split
    · exact ih regArgs kwargs ctx st
    · split
      · next v st' ctx' h1 =>
        have hr0 := hr k kwargs ctx st
        rw [h1] at hr0
        have hr1 : st'.registrations = st.registrations := hr0.1
        split
        · next vs st'' ctx'' h2 =>
          have hih := ih regArgs kwargs ctx' st'
          rw [h2] at hih
          have hih1 : st''.registrations = st'.registrations := hih.1
          exact ⟨hih1.trans hr1, trivial⟩
        · next e s h2 =>
          have hih := ih regArgs kwargs ctx' st'
          rw [h2] at hih
          have hih1 : s.registrations = st'.registrations := hih.1
          exact ⟨hih1.trans hr1, hih.2⟩
        · exact ⟨trivial, trivial⟩
      · next e s h1 =>
        have hr0 := hr k kwargs ctx st
        rw [h1] at hr0
        exact hr0
      · exact ⟨trivial, trivial⟩

theorem tidy_buildImplWith
    (r : Key → Kwargs → ResolutionContext → ContainerState → Res Obj)
    (hr : ∀ key kwargs ctx st, TidyRes st.registrations (r key kwargs ctx st)) :
    ∀ reg resolutionArgs ctx st,
      TidyRes st.registrations (buildImplWith r reg resolutionArgs ctx st) := by
  intro reg resolutionArgs ctx st
  unfold buildImplWith
  split
  · next resolved st' ctx' h1 =>
    have hN := tidy_resolveNeedsWith r hr reg.needs reg.args resolutionArgs ctx st
    rw [h1] at hN
    have hN1 : st'.registrations = st.registrations := hN.1
    exact buildFinish_tidy reg _ ctx' _
      ((invokeBuilder_registrations _ _ _).trans hN1)
  · next e s h1 =>
    have hN := tidy_resolveNeedsWith r hr reg.needs reg.args resolutionArgs ctx st
    rw [h1] at hN
    exact hN
  · exact ⟨trivial, trivial⟩

theorem tidy_buildListWith
    (b : Registration → Kwargs → ResolutionContext → ContainerState → Res Obj)
    (hb : ∀ reg kwargs ctx st, TidyRes st.registrations (b reg kwargs ctx st)) :
    ∀ l kwargs ctx st, TidyRes st.registrations (buildListWith b l kwargs ctx st) := by
  intro l
  induction l with
  | nil => exact fun _ _ _ => ⟨rfl, trivial⟩
  | cons reg rest ih =>
    intro kwargs ctx st
    simp only [buildListWith]
    split
    · next v st' ctx' h1 =>
      have hb0 := hb reg kwargs ctx st
      rw [h1] at hb0
      have hb1 : st'.registrations = st.registrations := hb0.1
      split
      · next vs st'' ctx'' h2 =>
        have hih := ih kwargs ctx' st'
        rw [h2] at hih
        have hih1 : st''.registrations = st'.registrations := hih.1
        exact ⟨hih1.trans hb1, trivial⟩
      · next e s h2 =>
        have hih := ih kwargs ctx' st'
        rw [h2] at hih
        have hih1 : s.registrations = st'.registrations := hih.1
        exact ⟨hih1.trans hb1, hih.2⟩
      · exact ⟨trivial, trivial⟩
    · next e s h1 =>
      have hb0 := hb reg kwargs ctx st
      rw [h1] at hb0
      exact hb0
    · exact ⟨trivial, trivial⟩

theorem tidy_resolveAllWith
    (r : Key → Kwargs → ResolutionContext → ContainerState → Res Obj)
    (hr : ∀ key kwargs ctx st, TidyRes st.registrations (r key kwargs ctx st)) :
    ∀ service kwargs st, TidyRes st.registrations (resolveAllWith r service kwargs st) := by
  intro service kwargs st
  unfold resolveAllWith
  exact tidy_buildListWith _ (tidy_buildImplWith r hr) _ _ _ _

theorem tidy_resolveStepEnsured
    (r : Key → Kwargs → ResolutionContext → ContainerState → Res Obj)
    (hr : ∀ key kwargs ctx st, TidyRes st.registrations (r key kwargs ctx st)) :
    ∀ key kwargs ctx₁ st,
      TidyRes st.registrations (resolveStepEnsured r key kwargs ctx₁ st) := by
  intro key kwargs ctx₁ st
  unfold resolveStepEnsured
  split
  · exact ⟨rfl, trivial⟩
  · split
    · exact ⟨rfl, trivial⟩
    · split
      · split
        · next items st' u hA =>
          have hAll := tidy_resolveAllWith r hr (Key.generic_parameter key) [] st
          rw [hA] at hAll
          have h1 : st'.registrations = st.registrations := hAll.1
          exact ⟨h1, trivial⟩
        · next e s hA =>
          have hAll := tidy_resolveAllWith r hr (Key.generic_parameter key) [] st
          rw [hA] at hAll
          exact hAll
        · exact ⟨trivial, trivial⟩
      · split
        · exact ⟨rfl, ⟨key, rfl⟩⟩
        · next reg rest hni =>
          split
          · split
            · next v st' ctx' h1 =>
              have hr0 := hr key kwargs
                { ctx₁ with targets := setBy key rest ctx₁.targets } st
              rw [h1] at hr0
              have h2 : st'.registrations = st.registrations := hr0.1
              have hB := tidy_buildImplWith r hr reg kwargs ctx' st'
              rw [h2] at hB
              exact hB
            · next e s h1 =>
              have hr0 := hr key kwargs
                { ctx₁ with targets := setBy key rest ctx₁.targets } st
              rw [h1] at hr0
              exact hr0
            · exact ⟨trivial, trivial⟩
          · exact tidy_buildImplWith r hr reg kwargs _ st

theorem tidy_resolveImpl :
    ∀ (fuel : Nat) (key : Key) (kwargs : Kwargs) (ctx : ResolutionContext)
      (st : ContainerState),
      TidyRes st.registrations (resolveImpl fuel key kwargs ctx st) := by
  intro fuel
  induction fuel with
  | zero => exact fun _ _ _ _ => ⟨trivial, trivial⟩
  | succ fuel ih =>
    intro key kwargs ctx st
    exact tidy_resolveStepEnsured (resolveImpl fuel) ih key kwargs _ st

theorem tidy_resolve (fuel : Nat) (st : ContainerState) (key : Key)
    (kwargs : Kwargs) :
    TidyRes st.registrations (Container.resolve fuel st key kwargs) :=
  tidy_resolveImpl fuel key kwargs _ st

theorem tidy_resolve_all (fuel : Nat) (st : ContainerState) (service : Key)
    (kwargs : Kwargs) :
    TidyRes st.registrations (Container.resolve_all fuel st service kwargs) :=
  tidy_resolveAllWith (resolveImpl fuel) (tidy_resolveImpl fuel) service kwargs st

/-! ## Claims C9, C10, C7, C5 -/

/-- C9: resolve and resolve_all never modify the Registry: whatever the
outcome (success or raised error), the final container state holds exactly
the registration list it started with, so per-key order stays registration
order and no registration is ever removed from the registry itself. -/
theorem claim_C9 : ∀ (fuel : Nat) (st : ContainerState) (key : Key) (kwargs : Kwargs),
    (∀ v st' ctx', Container.resolve fuel st key kwargs = Res.ok v st' ctx' →
      st'.registrations = st.registrations) ∧
    (∀ e st', Container.resolve fuel st key kwargs = Res.err e st' →
      st'.registrations = st.registrations) ∧
    (∀ vs st' ctx', Container.resolve_all fuel st key kwargs = Res.ok vs st' ctx' →
      st'.registrations = st.registrations) ∧
    (∀ e st', Container.resolve_all fuel st key kwargs = Res.err e st' →
      st'.registrations = st.registrations) := by
  intro fuel st key kwargs
  refine ⟨?_, ?_, ?_, ?_⟩
  · intro v st' ctx' h
    have hres := tidy_resolve fuel st key kwargs
    rw [h] at hres
    exact hres.1
  · intro e st' h
    have hres := tidy_resolve fuel st key kwargs
    rw [h] at hres
    exact hres.1
  · intro vs st' ctx' h
    have hres := tidy_resolve_all fuel st key kwargs
    rw [h] at hres
    exact hres.1
  · intro e st' h
    have hres := tidy_resolve_all fuel st key kwargs
    rw [h] at hres
    exact hres.1

theorem claim_C9_witness :
    (ContainerState.mk [cReg1, cReg2] [] 1 [cKey]).registrations = cStTwo.registrations :=
  (claim_C9 1 cStTwo cKey []).1 (Obj.mk 0 2 []) _ _ rfl

/-- C10: a register call that supplies both an instance and a factory (even a
non-callable one) performs the instance registration — singleton scope, empty
needs, a constant builder returning the supplied instance — and silently
ignores the factory, never raising. -/
theorem claim_C10 : ∀ (ne : NeedsExtractor) (regs : List Registration) (service : Key)
    (frameResolve : String → Option Key) (factory : FactoryArg) (v : Obj)
    (scope : Scope) (kwargs : Kwargs),
    Registry.register ne regs service frameResolve factory (some v) scope kwargs =
      Except.ok (regs ++
        [{ service := resolveServiceName frameResolve service,
           scope := Scope.singleton,
           builder := { params := [], impl := BuilderImpl.const v },
           needs := [], args := [] }]) := by
  intro ne regs service frameResolve factory v scope kwargs
  rfl

/-- C7 (amended): InvalidRegistrationException is raised at register time
exactly when no instance is supplied and either (a) no factory is supplied and
the name-resolved service is not a type identity, or (b) the supplied factory
is not callable; a supplied instance short-circuits both checks.  Any error a
register call raises is an InvalidRegistrationException, and any error a
resolve raises is a MissingDependencyException — so InvalidRegistration is
never raised at resolve time. -/
theorem claim_C7 :
    (∀ (ne : NeedsExtractor) (regs : List Registration) (service : Key)
        (frameResolve : String → Option Key) (factory : FactoryArg)
        (inst : Option Obj) (scope : Scope) (kwargs : Kwargs),
      (∃ e, Registry.register ne regs service frameResolve factory inst scope kwargs
          = Except.error e) ↔
        (inst = none ∧
          ((factory = FactoryArg.empty ∧
            Key.isType (resolveServiceName frameResolve service) = false) ∨
           factory = FactoryArg.notCallable))) ∧
    (∀ (ne : NeedsExtractor) (regs : List Registration) (service : Key)
        (frameResolve : String → Option Key) (factory : FactoryArg)
        (inst : Option Obj) (scope : Scope) (kwargs : Kwargs) (e : PunqError),
      Registry.register ne regs service frameResolve factory inst scope kwargs
          = Except.error e → ∃ k, e = PunqError.invalidRegistration k) ∧
    (∀ (fuel : Nat) (st : ContainerState) (key : Key) (kwargs : Kwargs)
        (e : PunqError) (st' : ContainerState),
      Container.resolve fuel st key kwargs = Res.err e st' →
        ∃ k, e = PunqError.missingDependency k) := by
  refine ⟨?_, ?_, ?_⟩
  · intro ne regs service frameResolve factory inst scope kwargs
    cases inst with
    | some v => simp [Registry.register]
    | none =>
      cases factory with
      | empty =>
        cases hs : resolveServiceName frameResolve service with
        | plain n =>
          simp [Registry.register, hs, Registry.register_concrete_service, Key.isType,
            Except.map, ensure_forward_ref]
        | strKey s =>
          simp [Registry.register, hs, Registry.register_concrete_service, Key.isType,
            Except.map, ensure_forward_ref]
        | listOf k =>
          simp [Registry.register, hs, Registry.register_concrete_service, Key.isType,
            Except.map, ensure_forward_ref]
      | cal f => simp [Registry.register]
      | notCallable => simp [Registry.register]
  · intro ne regs service frameResolve factory inst scope kwargs e h
    cases inst with
    | some v => simp [Registry.register] at h
    | none =>
      cases factory with
      | empty =>
        cases hs : resolveServiceName frameResolve service with
        | plain n =>
          simp [Registry.register, hs, Registry.register_concrete_service,
            Except.map, ensure_forward_ref] at h
        | strKey s =>
          simp [Registry.register, hs, Registry.register_concrete_service,
            Except.map, ensure_forward_ref] at h
          exact ⟨_, h.symm⟩
        | listOf k =>
          simp [Registry.register, hs, Registry.register_concrete_service,
            Except.map, ensure_forward_ref] at h
          exact ⟨_, h.symm⟩
      | cal f => simp [Registry.register] at h
      | notCallable =>
        simp [Registry.register] at h
        exact ⟨_, h.symm⟩
  · intro fuel st key kwargs e st' h
    have hres := tidy_resolve fuel st key kwargs
    rw [h] at hres
    exact hres.2

theorem claim_C7_counterexample :
    Registry.register cNE [] (Key.plain 0) cFrame FactoryArg.notCallable
      (some (Obj.prim 0)) Scope.transient [] =
    Except.ok [{ service := Key.plain 0, scope := Scope.singleton,
                 builder := { params := [], impl := BuilderImpl.const (Obj.prim 0) },
                 needs := [], args := [] }] := rfl

theorem claim_C7_witness :
    (∃ e, Registry.register cNE [] (Key.strKey "x") cFrame FactoryArg.empty none
        Scope.transient [] = Except.error e) ∧
    (∃ k, PunqError.invalidRegistration (Key.strKey "x") = PunqError.invalidRegistration k) ∧
    (∃ k, PunqError.missingDependency cKey = PunqError.missingDependency k) := by
  refine ⟨?_, ?_, ?_⟩
  · exact (claim_C7.1 cNE [] (Key.strKey "x") cFrame FactoryArg.empty none
      Scope.transient []).mpr ⟨rfl, Or.inl ⟨rfl, rfl⟩⟩
  · exact claim_C7.2.1 cNE [] (Key.strKey "x") cFrame FactoryArg.empty none
      Scope.transient [] _ rfl
  · exact claim_C7.2.2 1 cStEmpty cKey [] _ _ rfl

/-- C5 (amended): for every non-generic-list key with no registration and no
singleton cache entry, resolve raises MissingDependencyException identifying
the key (leaving the state unchanged); resolve_all never fails for an
unregistered key and returns the empty sequence.  A generic-list key with no
registration instead resolves to the empty sequence (see the
counterexample). -/
theorem claim_C5 :
    (∀ (st : ContainerState) (key : Key) (kwargs : Kwargs) (fuel : Nat),
      regsFor st.registrations key = [] →
      lookupBy key st.singletons = none →
      Key.is_generic_list key = false →
      Container.resolve (fuel + 1) st key kwargs =
        Res.err (PunqError.missingDependency key) st) ∧
    (∀ (fuel : Nat) (st : ContainerState) (key : Key) (kwargs : Kwargs),
      regsFor st.registrations key = [] →
      Container.resolve_all fuel st key kwargs =
        Res.ok [] st (buildContext st.registrations key)) := by
  constructor
  · intro st key kwargs fuel h1 h2 h3
    show resolveImpl (fuel + 1) key kwargs (buildContext st.registrations key) st = _
    simp [resolveImpl, resolveStep, resolveStepEnsured, buildContext,
      buildContextExisting, lookupBy, next_impl, h1, h2, h3, allRegistrations]
  · intro fuel st key kwargs h1
    show resolveAllWith (resolveImpl fuel) key kwargs st = _
    simp [resolveAllWith, allRegistrations, buildContext, lookupBy, h1, buildListWith]

theorem claim_C5_counterexample :
    okValue (Container.resolve 2 cStEmpty (Key.listOf (Key.plain 0)) []) =
      some (Obj.objList []) := rfl

theorem claim_C5_witness :
    Container.resolve 1 cStEmpty cKey [] =
      Res.err (PunqError.missingDependency cKey) cStEmpty ∧
    Container.resolve_all 1 cStEmpty cKey [] =
      Res.ok [] cStEmpty (buildContext cStEmpty.registrations cKey) :=
  ⟨claim_C5.1 cStEmpty cKey [] 0 rfl rfl rfl, claim_C5.2 1 cStEmpty cKey [] rfl⟩

/-! ## Step lemmas for resolution traces -/

theorem buildContextExisting_of_some {regs : List Registration} {key : Key}
    {ctx : ResolutionContext} (h : (lookupBy key ctx.targets).isSome = true) :
    buildContextExisting regs key ctx = ctx := by
  simp [buildContextExisting, h]

theorem lookupBy_buildContext (regs : List Registration) (key : Key) :
    lookupBy key (buildContext regs key).targets = some (regsFor regs key) := by
  simp [buildContext, lookupBy]

theorem next_impl_concat (l : List Registration) (r : Registration) :
    next_impl (l ++ [r]) = (some r, l) := by
  simp [next_impl, List.getLast?_concat, List.dropLast_concat]

theorem resolveImpl_succ (fuel : Nat) (key : Key) (kwargs : Kwargs)
    (ctx : ResolutionContext) (st : ContainerState) :
    resolveImpl (fuel + 1) key kwargs ctx st =
      resolveStepEnsured (resolveImpl fuel) key kwargs
        (buildContextExisting st.registrations key ctx) st := rfl

theorem resolveStepEnsured_singleton
    (r : Key → Kwargs → ResolutionContext → ContainerState → Res Obj)
    (key : Key) (kwargs : Kwargs) (ctx₁ : ResolutionContext)
    (st : ContainerState) (v : Obj)
    (h : lookupBy key st.singletons = some v) :
    resolveStepEnsured r key kwargs ctx₁ st = Res.ok v st ctx₁ := by
  simp [resolveStepEnsured, h]

theorem resolveStepEnsured_cached
    (r : Key → Kwargs → ResolutionContext → ContainerState → Res Obj)
    (key : Key) (kwargs : Kwargs) (ctx₁ : ResolutionContext)
    (st : ContainerState) (v : Obj)
    (hsing : lookupBy key st.singletons = none)
    (hcache : lookupBy key ctx₁.cache = some v) :
    resolveStepEnsured r key kwargs ctx₁ st = Res.ok v st ctx₁ := by
  simp [resolveStepEnsured, hsing, hcache]

theorem resolveStepEnsured_pop
    (r : Key → Kwargs → ResolutionContext → ContainerState → Res Obj)
    (key : Key) (kwargs : Kwargs) (ctx₁ : ResolutionContext)
    (st : ContainerState) (impls : List Registration) (reg : Registration)
    (rest : List Registration)
    (hsing : lookupBy key st.singletons = none)
    (hcache : lookupBy key ctx₁.cache = none)
    (hgen : Key.is_generic_list key = false)
    (htar : lookupBy key ctx₁.targets = some impls)
    (hni : next_impl impls = (some reg, rest))
    (hguard : key ∉ reg.needs.map Prod.snd) :
    resolveStepEnsured r key kwargs ctx₁ st =
      buildImplWith r reg kwargs
        { ctx₁ with targets := setBy key rest ctx₁.targets } st := by
  simp [resolveStepEnsured, hsing, hcache, hgen, htar, hni, hguard]

theorem buildImplWith_nil
    (r : Key → Kwargs → ResolutionContext → ContainerState → Res Obj)
    (reg : Registration) (kwargs : Kwargs) (ctx : ResolutionContext)
    (st : ContainerState) (hn : reg.needs = []) :
    buildImplWith r reg kwargs ctx st =
      buildFinish reg
        (invokeBuilder reg.builder
          (assembleArgs [] reg.args kwargs reg.builder.params) st) ctx := by
  unfold buildImplWith
  rw [hn]
  rfl

/-- Singleton cache short-circuit: if the key is in the container's singleton
cache, resolution returns the cached instance and the state unchanged, before
consulting anything else. -/
theorem singleton_short_circuit (fuel : Nat) (key : Key) (kwargs : Kwargs)
    (ctx : ResolutionContext) (st : ContainerState) (v : Obj)
    (h : lookupBy key st.singletons = some v) :
    resolveImpl (fuel + 1) key kwargs ctx st =
      Res.ok v st (buildContextExisting st.registrations key ctx) :=
  resolveStepEnsured_singleton _ _ _ _ _ _ h

/-! ## Claims C1 and C2 -/

/-- C1: for a key with at least two registrations whose most recent
registration is builder2 (a factory with no needs), a top-level resolve
returns the instance built by builder2: alternatives are popped from the end
of the per-context working list, so the most recently registered wins. -/
theorem claim_C1 (st : ContainerState) (key : Key) (l : List Registration)
    (reg1 : Registration) (sc : Scope) (ps : List ParamName) (tag2 : Nat)
    (hsing : lookupBy key st.singletons = none)
    (hgen : Key.is_generic_list key = false)
    (hregs : regsFor st.registrations key =
      l ++ [reg1, { service := key, scope := sc,
                    builder := { params := ps, impl := BuilderImpl.factory tag2 },
                    needs := [], args := [] }]) :
    ∃ st' ctx', Container.resolve 1 st key [] =
      Res.ok (Obj.mk st.nextRef tag2 []) st' ctx' := by
  have h2 : buildContextExisting st.registrations key
      (buildContext st.registrations key) = buildContext st.registrations key :=
    buildContextExisting_of_some (by rw [lookupBy_buildContext]; rfl)
  have h4 := lookupBy_buildContext st.registrations key
  rw [hregs] at h4
  have h5 : next_impl (l ++ [reg1,
      { service := key, scope := sc,
        builder := { params := ps, impl := BuilderImpl.factory tag2 },
        needs := [], args := [] }]) =
      (some { service := key, scope := sc,
              builder := { params := ps, impl := BuilderImpl.factory tag2 },
              needs := [], args := [] }, l ++ [reg1]) := by
    rw [show l ++ [reg1,
        { service := key, scope := sc,
          builder := { params := ps, impl := BuilderImpl.factory tag2 },
          needs := [], args := [] }] = (l ++ [reg1]) ++
        [{ service := key, scope := sc,
           builder := { params := ps, impl := BuilderImpl.factory tag2 },
           needs := [], args := [] }] by simp]
    exact next_impl_concat _ _
  show ∃ st' ctx', resolveStepEnsured (resolveImpl 0) key []
      (buildContextExisting st.registrations key (buildContext st.registrations key))
      st = _
  rw [h2, resolveStepEnsured_pop (resolveImpl 0) key []
    (buildContext st.registrations key) st _ _ _ hsing rfl hgen
    h4 h5 (by simp), buildImplWith_nil _ _ _ _ _ rfl]
  exact ⟨_, _, rfl⟩

theorem claim_C1_witness :
    ∃ st' ctx', Container.resolve 1 cStTwo cKey [] =
      Res.ok (Obj.mk cStTwo.nextRef 2 []) st' ctx' :=
  claim_C1 cStTwo cKey [] cReg1 Scope.transient [] 2 rfl rfl rfl

/-- C2: the singleton cache short-circuits resolution before anything else;
and for a key whose most recent registration is a singleton-scoped factory
with no needs, two separate top-level resolve calls return the identical
instance: the first build stores it in the container-lifetime singleton
cache and the second call returns exactly that cached object, leaving the
container state unchanged. -/
theorem claim_C2 :
    (∀ (fuel : Nat) (key : Key) (kwargs : Kwargs) (ctx : ResolutionContext)
        (st : ContainerState) (v : Obj),
      lookupBy key st.singletons = some v →
      resolveImpl (fuel + 1) key kwargs ctx st =
        Res.ok v st (buildContextExisting st.registrations key ctx)) ∧
    (∀ (st : ContainerState) (key : Key) (l : List Registration)
        (ps : List ParamName) (tag : Nat),
      lookupBy key st.singletons = none →
      Key.is_generic_list key = false →
      regsFor st.registrations key =
        l ++ [{ service := key, scope := Scope.singleton,
                builder := { params := ps, impl := BuilderImpl.factory tag },
                needs := [], args := [] }] →
      (∃ ctx1, Container.resolve 1 st key [] =
        Res.ok (Obj.mk st.nextRef tag [])
          (ContainerState.mk st.registrations
            (setBy key (Obj.mk st.nextRef tag []) st.singletons)
            (st.nextRef + 1) (st.buildLog ++ [key])) ctx1) ∧
      (∃ ctx2, Container.resolve 1
          (ContainerState.mk st.registrations
            (setBy key (Obj.mk st.nextRef tag []) st.singletons)
            (st.nextRef + 1) (st.buildLog ++ [key])) key [] =
        Res.ok (Obj.mk st.nextRef tag [])
          (ContainerState.mk st.registrations
            (setBy key (Obj.mk st.nextRef tag []) st.singletons)
            (st.nextRef + 1) (st.buildLog ++ [key])) ctx2)) := by
  constructor
  · exact fun fuel key kwargs ctx st v h => singleton_short_circuit fuel key kwargs ctx st v h
  · intro st key l ps tag hsing hgen hregs
    constructor
    · have h2 : buildContextExisting st.registrations key
          (buildContext st.registrations key) = buildContext st.registrations key :=
        buildContextExisting_of_some (by rw [lookupBy_buildContext]; rfl)
      have h4 := lookupBy_buildContext st.registrations key
      rw [hregs] at h4
      have h5 := next_impl_concat l
        { service := key, scope := Scope.singleton,
          builder := { params := ps, impl := BuilderImpl.factory tag },
          needs := [], args := [] }
      show ∃ ctx1, resolveStepEnsured (resolveImpl 0) key []
          (buildContextExisting st.registrations key (buildContext st.registrations key))
          st = _
      rw [h2, resolveStepEnsured_pop (resolveImpl 0) key []
        (buildContext st.registrations key) st _ _ _ hsing rfl hgen
        h4 h5 (by simp), buildImplWith_nil _ _ _ _ _ rfl]
      exact ⟨_, rfl⟩
    · exact ⟨_, singleton_short_circuit 0 key [] _ _ _ (lookupBy_setBy_self _ _ _)⟩

theorem claim_C2_witness :
    (∃ ctx1, Container.resolve 1 cStSing cKey [] =
      Res.ok (Obj.mk cStSing.nextRef 3 [])
        (ContainerState.mk cStSing.registrations
          (setBy cKey (Obj.mk cStSing.nextRef 3 []) cStSing.singletons)
          (cStSing.nextRef + 1) (cStSing.buildLog ++ [cKey])) ctx1) ∧
    (∃ ctx2, Container.resolve 1
        (ContainerState.mk cStSing.registrations
          (setBy cKey (Obj.mk cStSing.nextRef 3 []) cStSing.singletons)
          (cStSing.nextRef + 1) (cStSing.buildLog ++ [cKey])) cKey [] =
      Res.ok (Obj.mk cStSing.nextRef 3 [])
        (ContainerState.mk cStSing.registrations
          (setBy cKey (Obj.mk cStSing.nextRef 3 []) cStSing.singletons)
          (cStSing.nextRef + 1) (cStSing.buildLog ++ [cKey])) ctx2) :=
  claim_C2.2 cStSing cKey [cReg1] [] 3 rfl rfl rfl

/-! ## Claims C3 and C4 -/

/-- C3 (amended): every successful build is cached in the Resolution Context
under the service key of the registration (and in the singleton cache when
singleton-scoped), and a context-cache hit — when the singleton cache has no
entry — returns the cached instance with the container state unchanged, so no
further instance is built and diamond branches share one instance.  The
blanket claim "at most one instance built per key" fails for the
self-reference guard (see the counterexample). -/
theorem claim_C3 :
    (∀ (fuel : Nat) (key : Key) (kwargs : Kwargs) (ctx : ResolutionContext)
        (st : ContainerState) (v : Obj),
      lookupBy key st.singletons = none →
      lookupBy key ctx.cache = some v →
      resolveImpl (fuel + 1) key kwargs ctx st =
        Res.ok v st (buildContextExisting st.registrations key ctx)) ∧
    (∀ (r : Key → Kwargs → ResolutionContext → ContainerState → Res Obj)
        (reg : Registration) (kwargs : Kwargs) (ctx : ResolutionContext)
        (st : ContainerState) (v : Obj) (st' : ContainerState)
        (ctx' : ResolutionContext),
      buildImplWith r reg kwargs ctx st = Res.ok v st' ctx' →
        lookupBy reg.service ctx'.cache = some v ∧
        (reg.scope = Scope.singleton →
          lookupBy reg.service st'.singletons = some v)) := by
  constructor
  · intro fuel key kwargs ctx st v hsing hcache
    rw [resolveImpl_succ]
    exact resolveStepEnsured_cached _ _ _ _ _ _ hsing
      (by rw [buildContextExisting_cache]; exact hcache)
  · intro r reg kwargs ctx st v st' ctx' h
    unfold buildImplWith at h
    split at h
    · next resolved stN ctxN hN =>
      unfold buildFinish at h
      injection h with hv hst hctx
      subst hv; subst hst; subst hctx
      constructor
      · exact lookupBy_setBy_self _ _ _
      · intro hscope
        rw [if_pos hscope]
        exact lookupBy_setBy_self _ _ _
    · next e s hN => simp at h
    · next hN => simp at h

theorem claim_C3_counterexample :
    buildLogOf (Container.resolve 3 cStWrap cKey []) = some [cKey, cKey] ∧
    ([cKey, cKey].count cKey) = 2 := ⟨rfl, rfl⟩

theorem claim_C3_witness :
    resolveImpl 1 cKey [] (ResolutionContext.mk [] [(cKey, Obj.prim 9)] cKey) cStEmpty =
      Res.ok (Obj.prim 9) cStEmpty
        (buildContextExisting cStEmpty.registrations cKey
          (ResolutionContext.mk [] [(cKey, Obj.prim 9)] cKey)) ∧
    (lookupBy cKey
        (ResolutionContext.mk [(cKey, [cReg1])] [(cKey, Obj.mk 0 1 [])] cKey).cache =
      some (Obj.mk 0 1 []) ∧
     (cReg1.scope = Scope.singleton →
      lookupBy cKey (ContainerState.mk [] [] 1 [cKey]).singletons =
        some (Obj.mk 0 1 []))) :=
  ⟨claim_C3.1 0 cKey [] (ResolutionContext.mk [] [(cKey, Obj.prim 9)] cKey)
      cStEmpty (Obj.prim 9) rfl rfl,
   claim_C3.2 (fun _ _ _ _ => Res.fuelOut) cReg1 []
      (buildContext [cReg1] cKey) cStEmpty (Obj.mk 0 1 [])
      (ContainerState.mk [] [] 1 [cKey])
      (ResolutionContext.mk [(cKey, [cReg1])] [(cKey, Obj.mk 0 1 [])] cKey) rfl⟩

theorem buildList_simple
    (r : Key → Kwargs → ResolutionContext → ContainerState → Res Obj) :
    ∀ (l : List Registration) (ctx : ResolutionContext) (st : ContainerState),
      (∀ reg ∈ l, reg.needs = [] ∧ reg.args = []) →
      ∃ vals st' ctx',
        buildListWith (buildImplWith r) l [] ctx st = Res.ok vals st' ctx' ∧
        List.Forall₂ BuiltFrom l vals := by
  intro l
  induction l with
  | nil => exact fun ctx st _ => ⟨[], st, ctx, rfl, List.Forall₂.nil⟩
  | cons reg rest ih =>
    intro ctx st hl
    obtain ⟨hn, ha⟩ := hl reg (List.mem_cons_self _ _)
    have hb : buildImplWith r reg [] ctx st =
        buildFinish reg (invokeBuilder reg.builder
          (assembleArgs [] reg.args [] reg.builder.params) st) ctx :=
      buildImplWith_nil r reg [] ctx st hn
    rw [ha] at hb
    have hargs : assembleArgs [] [] [] reg.builder.params = [] := rfl
    rw [hargs] at hb
    have hbuilt : BuiltFrom reg ((invokeBuilder reg.builder [] st).1) := by
      unfold BuiltFrom invokeBuilder
      cases reg.builder.impl with
      | factory t => exact ⟨st.nextRef, rfl⟩
      | const c => rfl
    obtain ⟨vals, st3, ctx3, hrest, hf⟩ :=
      ih _ _ (fun reg' h' => hl reg' (List.mem_cons_of_mem _ h'))
    refine ⟨(invokeBuilder reg.builder [] st).1 :: vals, st3, ctx3, ?_,
      List.Forall₂.cons hbuilt hf⟩
    simp only [buildListWith, hb, buildFinish]
    rw [hrest]

/-- C4 (amended): for a key whose registrations all have empty needs and no
explicit args, resolve_all succeeds and returns one built instance per
registration, in registration order (earliest registered first), each built
by the builder of the corresponding registration. -/
theorem claim_C4 (fuel : Nat) (st : ContainerState) (key : Key)
    (h : ∀ reg ∈ regsFor st.registrations key, reg.needs = [] ∧ reg.args = []) :
    ∃ vals st' ctx',
      Container.resolve_all fuel st key [] = Res.ok vals st' ctx' ∧
      vals.length = (regsFor st.registrations key).length ∧
      List.Forall₂ BuiltFrom (regsFor st.registrations key) vals := by
  obtain ⟨vals, st', ctx', heq, hf⟩ := buildList_simple (resolveImpl fuel)
    (regsFor st.registrations key) (buildContext st.registrations key) st h
  refine ⟨vals, st', ctx', ?_, hf.length_eq.symm, hf⟩
  show buildListWith (buildImplWith (resolveImpl fuel))
    (allRegistrations key (buildContext st.registrations key)) []
    (buildContext st.registrations key) st = _
  rw [show allRegistrations key (buildContext st.registrations key) =
    regsFor st.registrations key by simp [allRegistrations, lookupBy_buildContext]]
  exact heq

theorem claim_C4_counterexample :
    okValue (Container.resolve_all 1 cStTwo cKey []) =
      some [Obj.mk 0 1 [], Obj.mk 1 2 []] := rfl

theorem claim_C4_witness :
    ∃ vals st' ctx',
      Container.resolve_all 1 cStTwo cKey [] = Res.ok vals st' ctx' ∧
      vals.length = (regsFor cStTwo.registrations cKey).length ∧
      List.Forall₂ BuiltFrom (regsFor cStTwo.registrations cKey) vals :=
  claim_C4 1 cStTwo cKey (by
    intro reg hreg
    rw [show regsFor cStTwo.registrations cKey = [cReg1, cReg2] from rfl] at hreg
    simp only [List.mem_cons, List.not_mem_nil, or_false] at hreg
    rcases hreg with rfl | rfl
    · exact ⟨rfl, rfl⟩
    · exact ⟨rfl, rfl⟩)

/-! ## Claim C8 -/

/-- C8: in the build step, (1) a needs entry named "return", or whose name
has an explicit arg or a caller override arg, is skipped by the needs loop for
any resolver whatsoever — it is never recursively resolved; (2) when every
entry is excluded the loop finishes immediately with the state and context
untouched, for any resolver; (3) a caller override arg whose name is among the
builder's declared parameters (after removing "self") wins in the final
argument set; (4) an explicit arg wins over resolved values when no matching
condensed override exists. -/
theorem claim_C8 :
    (∀ (r : Key → Kwargs → ResolutionContext → ContainerState → Res Obj)
        (p : ParamName) (k : Key) (rest : List (ParamName × Key))
        (regArgs : List (ParamName × Obj)) (kwargs : Kwargs)
        (ctx : ResolutionContext) (st : ContainerState),
      (p = "return" ∨ (lookupBy p regArgs).isSome ∨ (lookupBy p kwargs).isSome) →
      resolveNeedsWith r ((p, k) :: rest) regArgs kwargs ctx st =
        resolveNeedsWith r rest regArgs kwargs ctx st) ∧
    (∀ (r : Key → Kwargs → ResolutionContext → ContainerState → Res Obj)
        (needs : List (ParamName × Key)) (regArgs : List (ParamName × Obj))
        (kwargs : Kwargs) (ctx : ResolutionContext) (st : ContainerState),
      (∀ pk ∈ needs, pk.1 = "return" ∨ (lookupBy pk.1 regArgs).isSome ∨
        (lookupBy pk.1 kwargs).isSome) →
      resolveNeedsWith r needs regArgs kwargs ctx st = Res.ok [] st ctx) ∧
    (∀ (resolved regArgs : List (ParamName × Obj)) (kwargs : Kwargs)
        (params : List ParamName) (p : ParamName) (v : Obj),
      (kwargs.map Prod.fst).Nodup →
      lookupBy p kwargs = some v →
      (params.erase "self").contains p = true →
      lookupBy p (assembleArgs resolved regArgs kwargs params) = some v) ∧
    (∀ (resolved regArgs : List (ParamName × Obj)) (kwargs : Kwargs)
        (params : List ParamName) (p : ParamName) (w : Obj),
      (regArgs.map Prod.fst).Nodup →
      lookupBy p regArgs = some w →
      ((params.erase "self").contains p = false ∨ lookupBy p kwargs = none) →
      lookupBy p (assembleArgs resolved regArgs kwargs params) = some w) := by
  have hskip : ∀ (r : Key → Kwargs → ResolutionContext → ContainerState → Res Obj)
      (p : ParamName) (k : Key) (rest : List (ParamName × Key))
      (regArgs : List (ParamName × Obj)) (kwargs : Kwargs)
      (ctx : ResolutionContext) (st : ContainerState),
      (p = "return" ∨ (lookupBy p regArgs).isSome ∨ (lookupBy p kwargs).isSome) →
      resolveNeedsWith r ((p, k) :: rest) regArgs kwargs ctx st =
        resolveNeedsWith r rest regArgs kwargs ctx st := by
    intro r p k rest regArgs kwargs ctx st h
    simp only [resolveNeedsWith]
    rw [if_pos h]
  refine ⟨hskip, ?_, ?_, ?_⟩
  · intro r needs
    induction needs with
    | nil => intro regArgs kwargs ctx st _; rfl
    | cons pk rest ih =>
      intro regArgs kwargs ctx st h
      obtain ⟨p, k⟩ := pk
      rw [hskip r p k rest regArgs kwargs ctx st (h (p, k) (List.mem_cons_self _ _))]
      exact ih regArgs kwargs ctx st
        (fun pk' h' => h pk' (List.mem_cons_of_mem _ h'))
  · intro resolved regArgs kwargs params p v hnd hk hc
    unfold assembleArgs condensedArgs
    have hcond : lookupBy p (kwargs.filter
        (fun q => (params.erase "self").contains q.1)) = some v := by
      rw [lookupBy_filter_keep _ _ hc]; exact hk
    have hknd : ((kwargs.filter
        (fun q => (params.erase "self").contains q.1)).map Prod.fst).Nodup :=
      hnd.sublist ((List.filter_sublist kwargs).map Prod.fst)
    exact lookupBy_updAll_some _ hcond hknd
  · intro resolved regArgs kwargs params p w hnd hk hc
    unfold assembleArgs condensedArgs
    have hcond : lookupBy p (kwargs.filter
        (fun q => (params.erase "self").contains q.1)) = none := by
      rcases hc with hc | hc
      · exact lookupBy_filter_drop _ _ hc
      · cases hcc : (params.erase "self").contains p with
        | false => exact lookupBy_filter_drop _ _ hcc
        | true => rw [lookupBy_filter_keep _ _ hcc]; exact hc
    rw [lookupBy_updAll_none _ hcond]
    exact lookupBy_updAll_some _ hk hnd

theorem claim_C8_witness :
    (resolveNeedsWith (fun _ _ _ _ => Res.fuelOut) [("return", cKey)] [] []
        (buildContext [] cKey) cStEmpty =
      resolveNeedsWith (fun _ _ _ _ => Res.fuelOut) [] [] []
        (buildContext [] cKey) cStEmpty) ∧
    (resolveNeedsWith (fun _ _ _ _ => Res.fuelOut) [("return", cKey)] [] []
        (buildContext [] cKey) cStEmpty =
      Res.ok [] cStEmpty (buildContext [] cKey)) ∧
    (lookupBy "a" (assembleArgs [] [] [("a", Obj.prim 1)] ["a"]) =
      some (Obj.prim 1)) ∧
    (lookupBy "b" (assembleArgs [] [("b", Obj.prim 2)] [] []) =
      some (Obj.prim 2)) := by
  refine ⟨?_, ?_, ?_, ?_⟩
  · exact claim_C8.1 (fun _ _ _ _ => Res.fuelOut) "return" cKey [] [] []
      (buildContext [] cKey) cStEmpty (Or.inl rfl)
  · exact claim_C8.2.1 (fun _ _ _ _ => Res.fuelOut) [("return", cKey)] [] []
      (buildContext [] cKey) cStEmpty
      (by intro pk h; simp only [List.mem_singleton] at h; subst h; exact Or.inl rfl)
  · exact claim_C8.2.2.1 [] [] [("a", Obj.prim 1)] ["a"] "a" (Obj.prim 1)
      (by simp) rfl rfl
  · exact claim_C8.2.2.2 [] [("b", Obj.prim 2)] [] [] "b" (Obj.prim 2)
      (by simp) rfl (Or.inl rfl)

/-! ## Claim C6: nontermination through generic list needs -/

theorem loop_build_fuelOut
    (r : Key → Kwargs → ResolutionContext → ContainerState → Res Obj)
    (ctx : ResolutionContext)
    (hcall : r (Key.listOf (Key.plain 0)) [] ctx cStLoop = Res.fuelOut) :
    buildImplWith r cRegLoop [] ctx cStLoop = Res.fuelOut := by
  unfold buildImplWith
  rw [show cRegLoop.needs = [("x", Key.listOf (Key.plain 0))] from rfl,
      show cRegLoop.args = ([] : List (ParamName × Obj)) from rfl]
  simp only [resolveNeedsWith]
  rw [if_neg (by decide), hcall]

theorem loop_propagate
    (r : Key → Kwargs → ResolutionContext → ContainerState → Res Obj)
    (hcall : r (Key.listOf (Key.plain 0)) []
      (ResolutionContext.mk [(Key.plain 0, [cRegLoop])] [] (Key.plain 0))
      cStLoop = Res.fuelOut) :
    resolveAllWith r (Key.plain 0) [] cStLoop = Res.fuelOut := by
  have e : resolveAllWith r (Key.plain 0) [] cStLoop =
      buildListWith (buildImplWith r) [cRegLoop] []
        (ResolutionContext.mk [(Key.plain 0, [cRegLoop])] [] (Key.plain 0))
        cStLoop := rfl
  rw [e]
  simp only [buildListWith]
  rw [loop_build_fuelOut r _ hcall]

theorem loop_generic_step (fuel : Nat) (ctx : ResolutionContext)
    (hmiss : (lookupBy (Key.listOf (Key.plain 0)) ctx.targets).isSome = false)
    (hcache : lookupBy (Key.listOf (Key.plain 0)) ctx.cache = none) :
    resolveImpl (fuel + 1) (Key.listOf (Key.plain 0)) [] ctx cStLoop =
      match resolveAllWith (resolveImpl fuel) (Key.plain 0) [] cStLoop with
      | Res.ok items st' _ => Res.ok (Obj.objList items) st'
          { ctx with targets := ctx.targets ++ [(Key.listOf (Key.plain 0), [])] }
      | Res.err e s => Res.err e s
      | Res.fuelOut => Res.fuelOut := by
  rw [resolveImpl_succ]
  have hens : buildContextExisting cStLoop.registrations
      (Key.listOf (Key.plain 0)) ctx =
      { ctx with targets := ctx.targets ++ [(Key.listOf (Key.plain 0), [])] } := by
    unfold buildContextExisting
    rw [hmiss]
    rfl
  rw [hens]
  unfold resolveStepEnsured
  rw [show lookupBy (Key.listOf (Key.plain 0)) cStLoop.singletons =
    (none : Option Obj) from rfl]
  rw [show ({ ctx with targets := ctx.targets ++ [(Key.listOf (Key.plain 0), [])] } :
    ResolutionContext).cache = ctx.cache from rfl]
  rw [hcache]
  rw [if_pos (show Key.is_generic_list (Key.listOf (Key.plain 0)) = true from rfl)]
  rfl

theorem loop_fuelOut :
    ∀ m, resolveAllWith (resolveImpl m) (Key.plain 0) [] cStLoop = Res.fuelOut := by
  intro m
  induction m with
  | zero => exact loop_propagate (resolveImpl 0) rfl
  | succ m ih =>
    refine loop_propagate (resolveImpl (m + 1)) ?_
    rw [loop_generic_step m
      (ResolutionContext.mk [(Key.plain 0, [cRegLoop])] [] (Key.plain 0)) rfl rfl, ih]

theorem loop_top
    (r : Key → Kwargs → ResolutionContext → ContainerState → Res Obj)
    (hcall : r (Key.listOf (Key.plain 0)) []
      (ResolutionContext.mk [(Key.plain 0, [])] [] (Key.plain 0)) cStLoop =
      Res.fuelOut) :
    resolveStepEnsured r (Key.plain 0) []
      (ResolutionContext.mk [(Key.plain 0, [cRegLoop])] [] (Key.plain 0))
      cStLoop = Res.fuelOut := by
  rw [resolveStepEnsured_pop r (Key.plain 0) []
    (ResolutionContext.mk [(Key.plain 0, [cRegLoop])] [] (Key.plain 0))
    cStLoop [cRegLoop] cRegLoop [] rfl rfl rfl rfl rfl (by decide)]
  rw [show ({ ResolutionContext.mk [(Key.plain 0, [cRegLoop])] [] (Key.plain 0) with
      targets := setBy (Key.plain 0) [] [(Key.plain 0, [cRegLoop])] } :
    ResolutionContext) = ResolutionContext.mk [(Key.plain 0, [])] [] (Key.plain 0)
    from rfl]
  exact loop_build_fuelOut r _ hcall

theorem resolve_loop_all_fuel :
    ∀ fuel, Container.resolve fuel cStLoop (Key.plain 0) [] = Res.fuelOut := by
  intro fuel
  match fuel with
  | 0 => rfl
  | fuel + 1 =>
    have e : Container.resolve (fuel + 1) cStLoop (Key.plain 0) [] =
        resolveStepEnsured (resolveImpl fuel) (Key.plain 0) []
          (ResolutionContext.mk [(Key.plain 0, [cRegLoop])] [] (Key.plain 0))
          cStLoop := rfl
    rw [e]
    apply loop_top (resolveImpl fuel)
    match fuel with
    | 0 => rfl
    | m + 1 =>
      rw [loop_generic_step m
        (ResolutionContext.mk [(Key.plain 0, [])] [] (Key.plain 0)) rfl rfl,
        loop_fuelOut m]

theorem claim_C6_counterexample : ¬ ResolutionTerminates cStLoop (Key.plain 0) [] := by
  intro h
  obtain ⟨fuel, hne⟩ := h
  exact hne (resolve_loop_all_fuel fuel)

/-! ## Measure lemmas for termination -/

theorem length_filter_partition {α : Type} (l : List α) (q : α → Bool) :
    (l.filter q).length + (l.filter (fun a => !(q a))).length = l.length := by
  induction l with
  | nil => rfl
  | cons a t ih =>
    simp only [List.filter_cons]
    cases hq : q a <;> simp [hq] <;> omega

theorem unvisited_split (regs : List Registration)
    (T : List (Key × List Registration)) (key : Key)
    (hnone : lookupBy key T = none) :
    (regs.filter (fun r => (lookupBy r.service T).isNone)).length =
    (regs.filter (fun r => r.service == key)).length +
    (regs.filter (fun r =>
      (lookupBy r.service T).isNone && !(r.service == key))).length := by
  induction regs with
  | nil => rfl
  | cons r t ih =>
    simp only [List.filter_cons]
    by_cases hk : r.service = key
    · have hq : (r.service == key) = true := by simpa using hk
      have hp : (lookupBy r.service T).isNone = true := by rw [hk, hnone]; rfl
      simp [hp, hq, List.length_cons]
      omega
    · have hq : (r.service == key) = false := beq_eq_false_iff_ne.mpr hk
      simp only [hq]
      cases hp : (lookupBy r.service T).isNone <;> simp [hp] <;> omega

theorem mu_buildContextExisting (regs : List Registration) (key : Key)
    (ctx : ResolutionContext) :
    mu regs (buildContextExisting regs key ctx) = mu regs ctx := by
  unfold buildContextExisting
  split
  · rfl
  · next h =>
    have hnone : lookupBy key ctx.targets = none := by
      cases hl : lookupBy key ctx.targets with
      | none => rfl
      | some v => rw [hl] at h; simp at h
    have hcong : regs.filter (fun r => (lookupBy r.service
        (ctx.targets ++ [(key, regsFor regs key)])).isNone) =
        regs.filter (fun r =>
          (lookupBy r.service ctx.targets).isNone && !(r.service == key)) := by
      apply List.filter_congr
      intro r _
      by_cases hk : r.service = key
      · have hq : (r.service == key) = true := by simpa using hk
        rw [hk, lookupBy_append_none _ hnone, hnone]
        simp [lookupBy, hq]
      · have hq : (r.service == key) = false := beq_eq_false_iff_ne.mpr hk
        have h2 : ¬(key = r.service) := fun hh => hk hh.symm
        cases hl : lookupBy r.service ctx.targets with
        | some v => rw [lookupBy_append_some _ hl]; simp [hq]
        | none =>
          rw [lookupBy_append_none _ hl]
          simp [lookupBy, h2, hq]
    show targetsSum _ + unvisited regs _ = targetsSum ctx + unvisited regs ctx
    unfold targetsSum unvisited
    simp only [sumLens, List.map_append, List.sum_append, List.map_cons,
      List.map_nil, List.sum_cons, List.sum_nil]
    rw [hcong, unvisited_split regs ctx.targets key hnone,
      show regsFor regs key = regs.filter (fun r => r.service == key) from rfl]
    omega

theorem sumLens_setBy (l : List (Key × List Registration)) (k : Key)
    (v w : List Registration) (hl : lookupBy k l = some w) :
    sumLens (setBy k v l) + w.length = sumLens l + v.length := by
  induction l with
  | nil => simp [lookupBy] at hl
  | cons hd t ih =>
    obtain ⟨k1, w1⟩ := hd
    by_cases hk : k1 = k
    · simp only [lookupBy, if_pos hk, Option.some.injEq] at hl
      subst hl
      simp [setBy, hk, sumLens]
      omega
    · simp only [lookupBy, if_neg hk] at hl
      have := ih hl
      simp only [setBy, if_neg hk, sumLens, List.map_cons, List.sum_cons] at this ⊢
      omega

theorem lookup_setBy_isNone {β : Type} (l : List (Key × β)) (k : Key) (v : β)
    (hl : (lookupBy k l).isSome = true) (a : Key) :
    (lookupBy a (setBy k v l)).isNone = (lookupBy a l).isNone := by
  by_cases ha : a = k
  · subst ha
    rw [lookupBy_setBy_self]
    cases hx : lookupBy a l with
    | some w => rfl
    | none => rw [hx] at hl; simp at hl
  · rw [lookupBy_setBy_ne _ _ ha]

theorem next_impl_some (impls : List Registration) (reg : Registration)
    (rest : List Registration) (h : next_impl impls = (some reg, rest)) :
    reg ∈ impls ∧ (∀ r0 ∈ rest, r0 ∈ impls) ∧ rest.length + 1 = impls.length := by
  unfold next_impl at h
  cases hg2 : impls.getLast? with
  | none => rw [hg2] at h; injection h with h1 h2; exact absurd h1 (by simp)
  | some r1 =>
    rw [hg2] at h
    injection h with h1 h2
    injection h1 with h1
    subst h1
    subst h2
    refine ⟨List.mem_of_getLast?_eq_some hg2, ?_, ?_⟩
    · exact fun r0 hr0 => (List.dropLast_sublist impls).subset hr0
    · have hne : impls ≠ [] := by intro he; rw [he] at hg2; simp at hg2
      have hld := List.length_dropLast impls
      have hlen : 1 ≤ impls.length := by
        cases impls with
        | nil => exact absurd rfl hne
        | cons a t => simp
      omega

theorem mu_setBy_pop (regs : List Registration) (ctx : ResolutionContext)
    (key : Key) (impls : List Registration) (reg : Registration)
    (rest : List Registration)
    (htar : lookupBy key ctx.targets = some impls)
    (hni : next_impl impls = (some reg, rest)) :
    mu regs { ctx with targets := setBy key rest ctx.targets } + 1 =
      mu regs ctx := by
  obtain ⟨_, _, hlen⟩ := next_impl_some impls reg rest hni
  have hsum := sumLens_setBy ctx.targets key rest impls htar
  have hunv : unvisited regs { ctx with targets := setBy key rest ctx.targets } =
      unvisited regs ctx := by
    unfold unvisited
    apply congrArg List.length
    apply List.filter_congr
    intro r _
    exact lookup_setBy_isNone _ _ _ (by rw [htar]; rfl) _
  show targetsSum _ + unvisited regs _ + 1 = targetsSum ctx + unvisited regs ctx
  rw [hunv]
  unfold targetsSum
  rw [show ({ ctx with targets := setBy key rest ctx.targets } :
    ResolutionContext).targets = setBy key rest ctx.targets from rfl]
  omega

theorem mu_buildContext (regs : List Registration) (key : Key) :
    mu regs (buildContext regs key) = regs.length := by
  have hcong : regs.filter (fun r =>
      (lookupBy r.service [(key, regsFor regs key)]).isNone) =
      regs.filter (fun r => !(r.service == key)) := by
    apply List.filter_congr
    intro r _
    by_cases hk : r.service = key
    · have hq : (r.service == key) = true := by simpa using hk
      rw [hk]
      simp [lookupBy, hq]
    · have hq : (r.service == key) = false := beq_eq_false_iff_ne.mpr hk
      have h2 : ¬(key = r.service) := fun hh => hk hh.symm
      simp [lookupBy, h2, hq]
  have hpart := length_filter_partition regs (fun r => r.service == key)
  show targetsSum _ + unvisited regs _ = regs.length
  unfold targetsSum unvisited buildContext
  simp only [sumLens, List.map_cons, List.map_nil, List.sum_cons, List.sum_nil]
  rw [hcong, show regsFor regs key = regs.filter (fun r => r.service == key) from rfl]
  omega

theorem InvCtx_buildContextExisting (regs : List Registration) (key : Key)
    (ctx : ResolutionContext) (hg : goodRegs regs) (hI : InvCtx ctx) :
    InvCtx (buildContextExisting regs key ctx) := by
  unfold buildContextExisting
  split
  · exact hI
  · intro kt hkt r hr
    rcases List.mem_append.mp hkt with h | h
    · exact hI kt h r hr
    · simp only [List.mem_singleton] at h
      subst h
      exact hg r (List.mem_of_mem_filter hr)

theorem InvCtx_buildContext (regs : List Registration) (key : Key)
    (hg : goodRegs regs) : InvCtx (buildContext regs key) := by
  intro kt hkt r hr
  simp only [buildContext, List.mem_singleton] at hkt
  subst hkt
  exact hg r (List.mem_of_mem_filter hr)

theorem InvCtx_pop (ctx : ResolutionContext) (key : Key)
    (impls rest : List Registration) (hI : InvCtx ctx)
    (htar : lookupBy key ctx.targets = some impls)
    (hrest : ∀ r0 ∈ rest, r0 ∈ impls) :
    InvCtx { ctx with targets := setBy key rest ctx.targets } := by
  intro kt hkt r hr
  rcases mem_setBy hkt with h | h
  · subst h
    exact hI (key, impls) (lookupBy_mem htar) r (hrest r hr)
  · exact hI kt h r hr

theorem lookupBy_buildContextExisting_isSome (regs : List Registration)
    (key : Key) (ctx : ResolutionContext) :
    (lookupBy key (buildContextExisting regs key ctx).targets).isSome = true := by
  unfold buildContextExisting
  split
  · next h => exact h
  · next h =>
    have hnone : lookupBy key ctx.targets = none := by
      cases hl : lookupBy key ctx.targets with
      | none => rfl
      | some v => rw [hl] at h; simp at h
    show (lookupBy key (ctx.targets ++ [(key, regsFor regs key)])).isSome = true
    rw [lookupBy_append_none _ hnone]
    simp [lookupBy]

/-! ## Termination contract induction -/
theorem resolveStepEnsured_missing
    (r : Key → Kwargs → ResolutionContext → ContainerState → Res Obj)
    (key : Key) (kwargs : Kwargs) (ctx₁ : ResolutionContext)
    (st : ContainerState) (rest : List Registration)
    (hsing : lookupBy key st.singletons = none)
    (hcache : lookupBy key ctx₁.cache = none)
    (hgen : Key.is_generic_list key = false)
    (hni : next_impl ((lookupBy key ctx₁.targets).getD []) = (none, rest)) :
    resolveStepEnsured r key kwargs ctx₁ st =
      Res.err (PunqError.missingDependency key) st := by
  simp [resolveStepEnsured, hsing, hcache, hgen, hni]

theorem resolveStepEnsured_pop_eq
    (r : Key → Kwargs → ResolutionContext → ContainerState → Res Obj)
    (key : Key) (kwargs : Kwargs) (ctx₁ : ResolutionContext)
    (st : ContainerState) (impls : List Registration) (reg : Registration)
    (rest : List Registration)
    (hsing : lookupBy key st.singletons = none)
    (hcache : lookupBy key ctx₁.cache = none)
    (hgen : Key.is_generic_list key = false)
    (htar : lookupBy key ctx₁.targets = some impls)
    (hni : next_impl impls = (some reg, rest)) :
    resolveStepEnsured r key kwargs ctx₁ st =
      (if key ∈ reg.needs.map Prod.snd then
        match r key kwargs { ctx₁ with targets := setBy key rest ctx₁.targets } st with
        | Res.ok _ st' ctx' => buildImplWith r reg kwargs ctx' st'
        | Res.err e s => Res.err e s
        | Res.fuelOut => Res.fuelOut
      else
        buildImplWith r reg kwargs
          { ctx₁ with targets := setBy key rest ctx₁.targets } st) := by
  simp [resolveStepEnsured, hsing, hcache, hgen, htar, hni]

theorem needsTotal (regs : List Registration)
    (r : Key → Kwargs → ResolutionContext → ContainerState → Res Obj) (B : Nat)
    (_hg : goodRegs regs) (hr : ResolverTotal regs r B) :
    ∀ (needs : List (ParamName × Key)) (regArgs : List (ParamName × Obj))
      (kwargs : Kwargs) (ctx : ResolutionContext) (st : ContainerState),
      st.registrations = regs → InvCtx ctx →
      (∀ pk ∈ needs, Key.is_generic_list pk.2 = false) →
      mu regs ctx < B →
      resolveNeedsWith r needs regArgs kwargs ctx st ≠ Res.fuelOut ∧
      ∀ vs st' ctx',
        resolveNeedsWith r needs regArgs kwargs ctx st = Res.ok vs st' ctx' →
        st'.registrations = regs ∧ InvCtx ctx' ∧ mu regs ctx' ≤ mu regs ctx := by
  intro needs
  induction needs with
  | nil =>
    intro regArgs kwargs ctx st hst hI _ _
    constructor
    · simp [resolveNeedsWith]
    · intro vs st' ctx' h
      have h' : Res.ok ([] : List (ParamName × Obj)) st ctx = Res.ok vs st' ctx' := h
      injection h' with h1 h2 h3
      subst h2
      subst h3
      exact ⟨hst, hI, le_refl _⟩
  | cons pk rest ih =>
    intro regArgs kwargs ctx st hst hI hng hmu
    obtain ⟨p, k⟩ := pk
    by_cases hex : (p = "return" ∨ (lookupBy p regArgs).isSome ∨
        (lookupBy p kwargs).isSome)
    · have he : resolveNeedsWith r ((p, k) :: rest) regArgs kwargs ctx st =
          resolveNeedsWith r rest regArgs kwargs ctx st := by
        simp only [resolveNeedsWith]
        rw [if_pos hex]
      rw [he]
      exact ih regArgs kwargs ctx st hst hI
        (fun pk' h' => hng pk' (List.mem_cons_of_mem _ h')) hmu
    · have he : resolveNeedsWith r ((p, k) :: rest) regArgs kwargs ctx st =
          (match r k kwargs ctx st with
           | Res.ok v st' ctx' =>
             (match resolveNeedsWith r rest regArgs kwargs ctx' st' with
              | Res.ok vs st'' ctx'' => Res.ok ((p, v) :: vs) st'' ctx''
              | Res.err e s => Res.err e s
              | Res.fuelOut => Res.fuelOut)
           | Res.err e s => Res.err e s
           | Res.fuelOut => Res.fuelOut) := by
        simp only [resolveNeedsWith]
        rw [if_neg hex]
      rw [he]
      have hrr := hr k kwargs ctx st hst hI
        (hng (p, k) (List.mem_cons_self _ _)) hmu
      cases hcall : r k kwargs ctx st with
      | fuelOut => exact absurd hcall hrr.1
      | err e s =>
        constructor
        · simp
        · intro vs st' ctx' h
          have h' : Res.err e s = Res.ok vs st' ctx' := h
          exact absurd h' (by simp)
      | ok v st1 ctx1 =>
        obtain ⟨hst1, hI1, hmu1⟩ := hrr.2 v st1 ctx1 hcall
        have hih := ih regArgs kwargs ctx1 st1 hst1 hI1
          (fun pk' h' => hng pk' (List.mem_cons_of_mem _ h'))
          (lt_of_le_of_lt hmu1 hmu)
        constructor
        · show (match resolveNeedsWith r rest regArgs kwargs ctx1 st1 with
              | Res.ok vs st'' ctx'' => Res.ok ((p, v) :: vs) st'' ctx''
              | Res.err e s => Res.err e s
              | Res.fuelOut => Res.fuelOut) ≠ Res.fuelOut
          cases hrest : resolveNeedsWith r rest regArgs kwargs ctx1 st1 with
          | fuelOut => exact absurd hrest hih.1
          | err e s => simp
          | ok vs2 st2 ctx2 => simp
        · intro vs st' ctx' h
          have h' : (match resolveNeedsWith r rest regArgs kwargs ctx1 st1 with
              | Res.ok vs st'' ctx'' => Res.ok ((p, v) :: vs) st'' ctx''
              | Res.err e s => Res.err e s
              | Res.fuelOut => Res.fuelOut) = Res.ok vs st' ctx' := h
          cases hrest : resolveNeedsWith r rest regArgs kwargs ctx1 st1 with
          | fuelOut => rw [hrest] at h'; exact absurd h' (by simp)
          | err e s => rw [hrest] at h'; exact absurd h' (by simp)
          | ok vs2 st2 ctx2 =>
            rw [hrest] at h'
            obtain ⟨hst2, hI2, hmu2⟩ := hih.2 vs2 st2 ctx2 hrest
            injection h' with h1 h2 h3
            subst h2
            subst h3
            exact ⟨hst2, hI2, le_trans hmu2 hmu1⟩

theorem buildTotal (regs : List Registration)
    (r : Key → Kwargs → ResolutionContext → ContainerState → Res Obj) (B : Nat)
    (hg : goodRegs regs) (hr : ResolverTotal regs r B) :
    ∀ (reg : Registration) (kwargs : Kwargs) (ctx : ResolutionContext)
      (st : ContainerState),
      regNonGen reg → st.registrations = regs → InvCtx ctx →
      mu regs ctx < B →
      buildImplWith r reg kwargs ctx st ≠ Res.fuelOut ∧
      ∀ v st' ctx', buildImplWith r reg kwargs ctx st = Res.ok v st' ctx' →
        st'.registrations = regs ∧ InvCtx ctx' ∧ mu regs ctx' ≤ mu regs ctx := by
  intro reg kwargs ctx st hng hst hI hmu
  have hN := needsTotal regs r B hg hr reg.needs reg.args kwargs ctx st hst hI hng hmu
  unfold buildImplWith
  cases hneeds : resolveNeedsWith r reg.needs reg.args kwargs ctx st with
  | fuelOut => exact absurd hneeds hN.1
  | err e s =>
    constructor
    · simp
    · intro v st' ctx' h
      have h' : Res.err e s = Res.ok v st' ctx' := h
      exact absurd h' (by simp)
  | ok resolved st1 ctx1 =>
    obtain ⟨hst1, hI1, hmu1⟩ := hN.2 resolved st1 ctx1 hneeds
    constructor
    · simp [buildFinish]
    · intro v st' ctx' h
      have h' : buildFinish reg
          (invokeBuilder reg.builder
            (assembleArgs resolved reg.args kwargs reg.builder.params) st1)
          ctx1 = Res.ok v st' ctx' := h
      unfold buildFinish at h'
      injection h' with h1 h2 h3
      subst h2
      subst h3
      refine ⟨?_, ?_, ?_⟩
      · split
        · exact (invokeBuilder_registrations _ _ _).trans hst1
        · exact (invokeBuilder_registrations _ _ _).trans hst1
      · exact hI1
      · exact hmu1

theorem stepTotal (regs : List Registration)
    (r : Key → Kwargs → ResolutionContext → ContainerState → Res Obj) (B : Nat)
    (hg : goodRegs regs) (hr : ResolverTotal regs r B) :
    ∀ (key : Key) (kwargs : Kwargs) (ctx : ResolutionContext)
      (st : ContainerState),
      st.registrations = regs → InvCtx ctx →
      Key.is_generic_list key = false → mu regs ctx ≤ B →
      resolveStep r key kwargs ctx st ≠ Res.fuelOut ∧
      ∀ v st' ctx', resolveStep r key kwargs ctx st = Res.ok v st' ctx' →
        st'.registrations = regs ∧ InvCtx ctx' ∧ mu regs ctx' ≤ mu regs ctx := by
  intro key kwargs ctx st hst hI hk hmu
  have hIe : InvCtx (buildContextExisting st.registrations key ctx) := by
    rw [hst]
    exact InvCtx_buildContextExisting regs key ctx hg hI
  have hmue : mu regs (buildContextExisting st.registrations key ctx) =
      mu regs ctx := by
    rw [hst]
    exact mu_buildContextExisting regs key ctx
  have hpres := lookupBy_buildContextExisting_isSome st.registrations key ctx
  unfold resolveStep
  set E := buildContextExisting st.registrations key ctx with hEdef
  cases hsing : lookupBy key st.singletons with
  | some v =>
    rw [resolveStepEnsured_singleton r key kwargs _ st v hsing]
    constructor
    · simp
    · intro v' st' ctx' h
      injection h with h1 h2 h3
      subst h2
      subst h3
      exact ⟨hst, hIe, le_of_eq hmue⟩
  | none =>
    cases hcache : lookupBy key E.cache with
    | some v =>
      rw [resolveStepEnsured_cached r key kwargs _ st v hsing hcache]
      constructor
      · simp
      · intro v' st' ctx' h
        injection h with h1 h2 h3
        subst h2
        subst h3
        exact ⟨hst, hIe, le_of_eq hmue⟩
    | none =>
      cases hni0 : next_impl ((lookupBy key E.targets).getD []) with
      | mk o rest =>
        cases o with
        | none =>
          rw [resolveStepEnsured_missing r key kwargs _ st rest hsing hcache hk hni0]
          constructor
          · simp
          · intro v st' ctx' h
            exact absurd h (by simp)
        | some reg =>
          obtain ⟨impls, htar⟩ : ∃ impls,
              lookupBy key E.targets = some impls := by
            cases hx : lookupBy key E.targets with
            | some i => exact ⟨i, rfl⟩
            | none => rw [hx] at hpres; simp at hpres
          rw [htar] at hni0
          simp only [Option.getD_some] at hni0
          obtain ⟨hregmem, hrestmem, hlen⟩ := next_impl_some impls reg rest hni0
          have hreg_ng : regNonGen reg :=
            hIe (key, impls) (lookupBy_mem htar) reg hregmem
          have hmu2 := mu_setBy_pop regs E key impls reg rest htar hni0
          have hI2 : InvCtx { E with targets := setBy key rest E.targets } :=
            InvCtx_pop E key impls rest hIe htar hrestmem
          rw [resolveStepEnsured_pop_eq r key kwargs _ st impls reg rest
            hsing hcache hk htar hni0]
          by_cases hgd : key ∈ reg.needs.map Prod.snd
          · rw [if_pos hgd]
            have hrc := hr key kwargs
              { E with targets := setBy key rest E.targets } st hst hI2 hk
              (by omega)
            cases hcall : r key kwargs
                { E with targets := setBy key rest E.targets } st with
            | fuelOut => exact absurd hcall hrc.1
            | err e s =>
              constructor
              · simp
              · intro v st' ctx' h
                have h' : Res.err e s = Res.ok v st' ctx' := h
                exact absurd h' (by simp)
            | ok v0 st1 ctx3 =>
              obtain ⟨hstA, hIA, hmuA⟩ := hrc.2 v0 st1 ctx3 hcall
              have hB := buildTotal regs r B hg hr reg kwargs ctx3 st1
                hreg_ng hstA hIA (by omega)
              constructor
              · show buildImplWith r reg kwargs ctx3 st1 ≠ Res.fuelOut
                exact hB.1
              · intro v st' ctx' h
                have h' : buildImplWith r reg kwargs ctx3 st1 =
                    Res.ok v st' ctx' := h
                obtain ⟨hb1, hb2, hb3⟩ := hB.2 v st' ctx' h'
                exact ⟨hb1, hb2, by omega⟩
          · rw [if_neg hgd]
            have hB := buildTotal regs r B hg hr reg kwargs
              { E with targets := setBy key rest E.targets } st hreg_ng hst hI2
              (by omega)
            constructor
            · exact hB.1
            · intro v st' ctx' h
              obtain ⟨hb1, hb2, hb3⟩ := hB.2 v st' ctx' h
              exact ⟨hb1, hb2, by omega⟩

theorem resolveImpl_total (regs : List Registration) (hg : goodRegs regs) :
    ∀ fuel : Nat, ResolverTotal regs (resolveImpl fuel) fuel := by
  intro fuel
  induction fuel with
  | zero =>
    intro key kwargs ctx st hst hI hk hmu
    exact absurd hmu (by omega)
  | succ fuel ih =>
    intro key kwargs ctx st hst hI hk hmu
    exact stepTotal regs (resolveImpl fuel) fuel hg ih key kwargs ctx st
      hst hI hk (by omega)

/-- C6 (amended): for every finite registration set in which no needs map
mentions a generic-list (collection) key, top-level resolution of a
non-collection key terminates — it succeeds or raises
MissingDependencyException — within a recursion depth bounded by the total
number of registrations plus one, because each recursive step pops one
alternative from a finite per-context working stack.  (When a needs map does
mention a generic-list key, resolution can recurse unboundedly through fresh
resolve_all contexts: see the counterexample.) -/
theorem claim_C6 (st : ContainerState) (key : Key) (kwargs : Kwargs)
    (hg : goodRegs st.registrations)
    (hk : Key.is_generic_list key = false) :
    Container.resolve (st.registrations.length + 1) st key kwargs ≠ Res.fuelOut ∧
    ResolutionTerminates st key kwargs := by
  have htot := resolveImpl_total st.registrations hg
    (st.registrations.length + 1) key kwargs
    (buildContext st.registrations key) st rfl
    (InvCtx_buildContext st.registrations key hg) hk
    (by rw [mu_buildContext]; omega)
  exact ⟨htot.1, ⟨st.registrations.length + 1, htot.1⟩⟩

theorem claim_C6_witness :
    Container.resolve (cStTwo.registrations.length + 1) cStTwo cKey [] ≠
      Res.fuelOut ∧
    ResolutionTerminates cStTwo cKey [] :=
  claim_C6 cStTwo cKey [] (by
    intro r hr
    rw [show cStTwo.registrations = [cReg1, cReg2] from rfl] at hr
    simp only [List.mem_cons, List.not_mem_nil, or_false] at hr
    intro pk hpk
    rcases hr with rfl | rfl
    · simp [cReg1] at hpk
    · simp [cReg2] at hpk) rfl
